import Mathlib

/-!
Verification of the template rewriting engine and color algebra of the
color-palette-extractor repository (`colors/Color.py`, `colors/Theme.py`).

The embedding models:
  * the `Color` value type: an RGB triple of exact rationals (the `_rgb`
    numpy array of `Color.__init__`), together with the HSV conversions of
    the `colour` library (`colour.models.RGB_to_HSV` / `HSV_to_RGB`,
    the standard Smith sector formulas, which is what the spec calls the
    "standard HSV->RGB sector formula"), the derivation operations
    (`hue_shift`, `complementary`, `tint`, `shade`, ...) and the derived
    `rgb` / `hex` views;
  * the regex rewriting of `Theme.process_template`: each compiled pattern
    of the source is implemented as a deterministic matcher (the patterns
    involved have no genuine backtracking), `re.sub` as a left-to-right
    non-overlapping scan, and the fixed-point `while change:` loop both as
    a big-step relation (`LoopRun`, the faithful semantics of the
    possibly-diverging while loop) and as an executable function.

Machine reals are modelled as exact rationals; the numeric values proved
about concrete templates are exact (0, 255, ...), so no floating-point
rounding can affect them.  `np.ndarray.astype(int)` is truncation toward
zero, modelled by `truncInt`.
-/

attribute [local semireducible] Rat.add Rat.sub Rat.mul Rat.inv Rat.ofScientific

namespace CPE

/-- Python's `x % 1.0` (floored modulo): `x - floor x`. -/
def pmod1 (x : ℚ) : ℚ := x - ⌊x⌋

/-- `np.ndarray.astype(int)`: truncation toward zero. -/
def truncInt (x : ℚ) : ℤ := Int.tdiv x.num x.den

/-- `np.amax` on two values (kernel-reducible version of `max`). -/
def qmax (a b : ℚ) : ℚ := if a ≤ b then b else a

/-- `np.amin` on two values (kernel-reducible version of `min`). -/
def qmin (a b : ℚ) : ℚ := if a ≤ b then a else b

/-- The color value type: the `_rgb` field of `colors/Color.py`, three exact
rationals on the 0..1 scale. -/
structure Color where
  r : ℚ
  g : ℚ
  b : ℚ
  deriving DecidableEq, Repr

/-- `colour.models.RGB_to_HSV` (standard hexcone formula): value is the
channel maximum, saturation `delta / maximum` (0 when `delta = 0`), hue from
the sector of the maximal channel; the `B == maximum` branch overrides the
`G == maximum` branch which overrides the red default, and the result is
wrapped into `[0, 1]`.  A gray input (`delta = 0`) yields hue 0. -/
def hsvOf (c : Color) : ℚ × ℚ × ℚ :=
  let v := qmax c.r (qmax c.g c.b)
  let m := qmin c.r (qmin c.g c.b)
  let d := v - m
  if d = 0 then (0, 0, v)
  else
    let s := d / v
    let h0 := (c.g - c.b) / (6 * d)
    let h1 := if c.g = v then 1/3 + (c.b - c.r) / (6 * d) else h0
    let h2 := if c.b = v then 2/3 + (c.r - c.g) / (6 * d) else h1
    let h3 := if h2 < 0 then h2 + 1 else h2
    let h4 := if h3 > 1 then h3 - 1 else h3
    (h4, s, v)

/-- `colour.models.HSV_to_RGB` (standard sector formula): `i = floor (6 h)`,
`f` the fractional part, and the triple selected by the sector; exactly
`h = 1` is first sent to 0.  Inputs outside the six sectors (never produced
by the repository's own calls, whose hue is taken modulo 1) fall to the
`np.select` default of 0. -/
def colorOfHSV (h s v : ℚ) : Color :=
  let h6 := if h * 6 = 6 then 0 else h * 6
  let i : ℤ := ⌊h6⌋
  let f : ℚ := h6 - (i : ℚ)
  let j := v * (1 - s)
  let k := v * (1 - s * f)
  let l := v * (1 - s * (1 - f))
  if i = 0 then ⟨v, l, j⟩
  else if i = 1 then ⟨k, v, j⟩
  else if i = 2 then ⟨j, v, l⟩
  else if i = 3 then ⟨j, k, v⟩
  else if i = 4 then ⟨l, j, v⟩
  else if i = 5 then ⟨v, j, k⟩
  else ⟨0, 0, 0⟩

/-- `Color.hue_shift`: shift hue by `delta`, modulo 1. -/
def hueShift (c : Color) (delta : ℚ) : Color :=
  let hsv := hsvOf c
  colorOfHSV (pmod1 (hsv.1 + delta)) hsv.2.1 hsv.2.2

/-- `Color.complementary` = `hue_shift(0.5)`. -/
def complementary (c : Color) : Color := hueShift c (1/2)

/-- `Color.hue_shifts`. -/
def hueShifts (c : Color) (ds : List ℚ) : List Color := ds.map (hueShift c)

/-- `Color.analogous` with an integer index (the Python default `index=0`);
offsets `[-1/12, 1/12]`, picked by `index % 2`. -/
def analogous (c : Color) (i : ℤ) : Color :=
  (hueShifts c [-(1/12), 1/12]).getD (i % 2).toNat c

/-- `Color.triadic`: offsets `[1/3, 2/3]` picked by `index % 2`. -/
def triadic (c : Color) (i : ℤ) : Color :=
  (hueShifts c [1/3, 2/3]).getD (i % 2).toNat c

/-- `Color.tetradic`: offsets `[1/4, 1/2, 3/4]` picked by `index % 3`. -/
def tetradic (c : Color) (i : ℤ) : Color :=
  (hueShifts c [1/4, 1/2, 3/4]).getD (i % 3).toNat c

/-- `Color.tint`: `s' = s + (1-s) t`, `v' = v + (1-v) t`. -/
def tint (c : Color) (t : ℚ) : Color :=
  let hsv := hsvOf c
  colorOfHSV hsv.1 (hsv.2.1 + (1 - hsv.2.1) * t) (hsv.2.2 + (1 - hsv.2.2) * t)

/-- `Color.shade`: `v' = v (1 - t)`. -/
def shade (c : Color) (t : ℚ) : Color :=
  let hsv := hsvOf c
  colorOfHSV hsv.1 hsv.2.1 (hsv.2.2 * (1 - t))

/-- `Color.set_hue`. -/
def setHue (c : Color) (h : ℚ) : Color :=
  let hsv := hsvOf c
  colorOfHSV h hsv.2.1 hsv.2.2

/-- `Color.set_sat`. -/
def setSat (c : Color) (s : ℚ) : Color :=
  let hsv := hsvOf c
  colorOfHSV hsv.1 s hsv.2.2

/-- `Color.set_val`. -/
def setVal (c : Color) (v : ℚ) : Color :=
  let hsv := hsvOf c
  colorOfHSV hsv.1 hsv.2.1 v

/-- `Color.lerp_target`: hue along the shorter circular arc, saturation and
value linear. -/
def lerpTarget (c target : Color) (pos : ℚ) : Color :=
  let s := hsvOf c
  let t := hsvOf target
  let delta := pmod1 (t.1 - s.1 + 3/2) - 1/2
  colorOfHSV (pmod1 (s.1 + delta * pos)) (s.2.1 + (t.2.1 - s.2.1) * pos)
    (s.2.2 + (t.2.2 - s.2.2) * pos)

/-- `Color.from_rgb`: 0..255 channel values scaled to 0..1. -/
def fromRgb (r g b : ℚ) : Color := ⟨r / 255, g / 255, b / 255⟩

/-- The `Color.rgb` view: `(_rgb * 255).astype(int)`. -/
def rgb255 (c : Color) : ℤ × ℤ × ℤ :=
  (truncInt (c.r * 255), truncInt (c.g * 255), truncInt (c.b * 255))

/-- One byte of the hex view: `(x * 255)` cast to an unsigned byte
(truncation toward zero, wrapped modulo 256). -/
def hexByteVal (x : ℚ) : ℕ := (truncInt (x * 255) % 256).toNat

/-- One lowercase hexadecimal digit. -/
def hexDigit (d : ℕ) : Char := "0123456789abcdef".toList.getD d '0'

/-- Two lowercase hexadecimal digits of a byte. -/
def hexPair (n : ℕ) : List Char := [hexDigit (n / 16), hexDigit (n % 16)]

/-- The `Color.hex` view, `colour.notation.RGB_to_HEX`: a '#' followed by six
lowercase hexadecimal digits. -/
def hexText (c : Color) : List Char :=
  '#' :: (hexPair (hexByteVal c.r) ++ hexPair (hexByteVal c.g) ++ hexPair (hexByteVal c.b))

/-- Value of one hexadecimal character (0 for other characters; only
well-formed palettes appear in the claims). -/
def hexCharVal (c : Char) : ℕ :=
  if '0' ≤ c ∧ c ≤ '9' then c.toNat - 48
  else if 'a' ≤ c ∧ c ≤ 'f' then c.toNat - 87
  else if 'A' ≤ c ∧ c ≤ 'F' then c.toNat - 55
  else 0

/-- `Color.from_hex` / `colour.notation.HEX_to_RGB`: an optional leading '#'
and six hexadecimal digits, each byte scaled to 0..1. -/
def colorFromHex (s : List Char) : Color :=
  let t := if s.head? = some '#' then s.drop 1 else s
  match t with
  | [a, b, c, d, e, f] =>
      ⟨((16 * hexCharVal a + hexCharVal b : ℕ) : ℚ) / 255,
       ((16 * hexCharVal c + hexCharVal d : ℕ) : ℚ) / 255,
       ((16 * hexCharVal e + hexCharVal f : ℕ) : ℚ) / 255⟩
  | _ => ⟨0, 0, 0⟩

/-- Python exception classes that can leave the handlers of
`Theme.process_template`. -/
inductive PyErr where
  | valueError
  | typeError
  | attributeError
  deriving DecidableEq, Repr

instance {ε α : Type} [DecidableEq ε] [DecidableEq α] : DecidableEq (Except ε α)
  | .error e, .error f =>
      if h : e = f then .isTrue (by rw [h]) else .isFalse (by simp [h])
  | .error _, .ok _ => .isFalse (by simp)
  | .ok _, .error _ => .isFalse (by simp)
  | .ok a, .ok b =>
      if h : a = b then .isTrue (by rw [h]) else .isFalse (by simp [h])

/-- Whitespace for Python's `str.strip` / `float`. -/
def isSpaceChar (c : Char) : Bool :=
  c = ' ' || c = '\t' || c = '\n' || c = '\r'

/-- Python's `str.strip()`. -/
def pyStrip (s : List Char) : List Char :=
  ((s.dropWhile isSpaceChar).reverse.dropWhile isSpaceChar).reverse

/-- Numeric value of a digit run (empty run gives 0; callers enforce
non-emptiness where Python does). -/
def natVal (s : List Char) : ℕ :=
  s.foldl (fun acc c => 10 * acc + (c.toNat - 48)) 0

/-- `float(text)` on an unsigned body: digits, an optional point, fractional
digits; at least one digit in total.  Exponents and underscore separators are
never produced by the repository's templates and are not modelled. -/
def parseUnsigned (s : List Char) : Option ℚ :=
  let ip := s.takeWhile Char.isDigit
  let rest := s.dropWhile Char.isDigit
  match rest with
  | [] => if ip.isEmpty then none else some (natVal ip)
  | '.' :: frac =>
      if frac.all Char.isDigit && !(ip.isEmpty && frac.isEmpty) then
        some ((natVal ip : ℚ) + (natVal frac : ℚ) / (10 : ℚ) ^ frac.length)
      else none
  | _ => none

/-- Python's `float(text)`: strip whitespace, optional sign, decimal body. -/
def parseFloat (s : List Char) : Option ℚ :=
  match pyStrip s with
  | '-' :: u => (parseUnsigned u).map (fun q => -q)
  | '+' :: u => parseUnsigned u
  | u => parseUnsigned u

/-- The helper `p` of `process_template`:
`[float(x) for x in s.split(',') if x.strip()]`; a malformed entry raises
`ValueError`. -/
def pyFloats (s : List Char) : Except PyErr (List ℚ) :=
  ((s.splitOn ',').filter (fun x => !(pyStrip x).isEmpty)).mapM
    (fun x =>
      match parseFloat x with
      | some q => Except.ok q
      | none => Except.error PyErr.valueError)

/-- One decimal digit character. -/
def digitChar (d : ℕ) : Char := "0123456789".toList.getD d '0'

/-- Decimal digits of a natural number, most significant first
(`str` on a non-negative int). -/
def natCharsAux : ℕ → ℕ → List Char
  | 0, _ => []
  | fuel + 1, n =>
      if n < 10 then [digitChar n]
      else natCharsAux fuel (n / 10) ++ [digitChar (n % 10)]

/-- `str` of a natural number. -/
def natChars (n : ℕ) : List Char := natCharsAux (n + 1) n

/-- `str` of an integer. -/
def intChars (i : ℤ) : List Char :=
  if i < 0 then '-' :: natChars i.natAbs else natChars i.toNat

/-- `str(color.rgb).strip("[]")`: the comma-space-joined RGB text of a color
(Python list text with the enclosing brackets stripped). -/
def tripleText (c : Color) : List Char :=
  intChars (rgb255 c).1 ++ ", ".toList ++ intChars (rgb255 c).2.1 ++
    ", ".toList ++ intChars (rgb255 c).2.2

/-- A deterministic matcher: at the head of the input, either fail or return
(payload, consumed text, remaining text).  Each compiled pattern of
`process_template` is implemented by one matcher; the patterns involved are
deterministic, so Python's backtracking never changes the outcome. -/
def Pm (α : Type) : Type := List Char → Option (α × List Char × List Char)

/-- Literal text. -/
def litM (pat : List Char) : Pm Unit := fun s =>
  if pat.isPrefixOf s then some ((), pat, s.drop pat.length) else none

/-- `\d+` (greedy; always followed in our patterns by a non-digit literal,
so maximal munch is exact). -/
def digitsM : Pm (List Char) := fun s =>
  let ds := s.takeWhile Char.isDigit
  if ds.isEmpty then none else some (ds, ds, s.drop ds.length)

/-- A word character for `\w` / `\b` (ASCII; the repository's templates and
role names in the claims are ASCII). -/
def isWordChar (c : Char) : Bool := c.isAlphanum || c = '_'

/-- `\w+` (greedy; always followed by `\)` in our patterns). -/
def wordsM : Pm (List Char) := fun s =>
  let ds := s.takeWhile isWordChar
  if ds.isEmpty then none else some (ds, ds, s.drop ds.length)

/-- `\ ?`: an optional space (consuming it when present is exact because the
next pattern element is `\d+`). -/
def optSpaceM : Pm Unit := fun s =>
  match s with
  | ' ' :: rest => some ((), [' '], rest)
  | _ => some ((), [], s)

/-- `.` in a regex without DOTALL: any single character except a newline. -/
def anyNotNL : Pm Char := fun s =>
  match s with
  | [] => none
  | c :: rest => if c = '\n' then none else some (c, [c], rest)

/-- `(.*?)\)`: the shortest run of non-newline characters up to a closing
parenthesis. -/
def upToParenM : Pm (List Char) := fun s =>
  let body := s.takeWhile (fun c => c ≠ ')' && c ≠ '\n')
  match s.drop body.length with
  | ')' :: r2 => some (body, body ++ [')'], r2)
  | _ => none

/-- `\b` after a word character: end of input or a non-word character. -/
def boundaryM : Pm Unit := fun s =>
  match s with
  | [] => some ((), [], [])
  | c :: _ => if isWordChar c then none else some ((), [], s)

/-- Sequencing of matchers; consumed text is the concatenation. -/
def andM {α β : Type} (p : Pm α) (q : Pm β) : Pm (α × β) := fun s =>
  match p s with
  | none => none
  | some (a, c1, r1) =>
      match q r1 with
      | none => none
      | some (b, c2, r2) => some ((a, b), c1 ++ c2, r2)

/-- Payload transformation. -/
def pmap {α β : Type} (f : α → β) (p : Pm α) : Pm β := fun s =>
  match p s with
  | none => none
  | some (a, c, r) => some (f a, c, r)

/-- Replace the payload by the consumed text (regex group text). -/
def withText {α : Type} (p : Pm α) : Pm (List Char) := fun s =>
  match p s with
  | none => none
  | some (_, c, r) => some (c, c, r)

/-- Group 1 of the function and property patterns:
`(\d+, ?\d+, ?\d+)`. -/
def tripleM : Pm (List Char) :=
  withText (andM digitsM (andM (litM [',']) (andM optSpaceM (andM digitsM
    (andM (litM [',']) (andM optSpaceM digitsM))))))

/-- A function-call pattern `(\d+, ?\d+, ?\d+)\.NAME\((.*?)\)`; payload is
(group 1, group 2). -/
def funcM (name : List Char) : Pm (List Char × List Char) :=
  pmap (fun x => (x.1.1, x.2))
    (andM (andM tripleM (litM ('.' :: name ++ ['(']))) upToParenM)

/-- The property pattern `(\d+, ?\d+, ?\d+)\.HEX\b`; payload is group 1. -/
def hexM : Pm (List Char) :=
  pmap (fun x => x.1.1) (andM (andM tripleM (litM ".HEX".toList)) boundaryM)

/-- `ROLE\((\w+)\)`; payload is the role name. -/
def roleM : Pm (List Char) :=
  pmap (fun x => x.1.2) (andM (andM (litM "ROLE(".toList) wordsM) (litM [')']))

/-- `KEY\((\d+)\)`; payload is the digit text. -/
def keyM : Pm (List Char) :=
  pmap (fun x => x.1.2) (andM (andM (litM "KEY(".toList) digitsM) (litM [')']))

/-- The variable pre-pass pattern `re.compile(k.upper() + ".REPLACE")`: the
uppercased name, then any single non-newline character (the unescaped `.`),
then the literal `REPLACE`.  Modelled for names without regex
metacharacters, which is what the claims exercise. -/
def varM (uname : List Char) : Pm Unit :=
  pmap (fun _ => ())
    (andM (andM (litM uname) anyNotNL) (litM "REPLACE".toList))

/-- `re.sub` scan: left to right, non-overlapping, replacement functions may
raise; a raise aborts the whole substitution (as an exception propagating
out of `pattern.sub`).  Fuel is the input length; every real matcher
consumes at least one character, so the fuel never runs out. -/
def subAux {α : Type} (m : Pm α)
    (repl : α → List Char → Except PyErr (List Char)) :
    ℕ → List Char → Except PyErr (List Char)
  | 0, s => .ok s
  | fuel + 1, s =>
      match s with
      | [] => .ok []
      | c :: cs =>
          match m s with
          | some (a, consumed, rest) =>
              match consumed with
              | [] => (subAux m repl fuel cs).map (fun t => c :: t)
              | _ :: _ =>
                  match repl a consumed with
                  | .error e => .error e
                  | .ok r =>
                      match subAux m repl fuel rest with
                      | .error e => .error e
                      | .ok t => .ok (r ++ t)
          | none => (subAux m repl fuel cs).map (fun t => c :: t)

/-- `pattern.sub(f, s)`. -/
def pySub {α : Type} (m : Pm α)
    (repl : α → List Char → Except PyErr (List Char)) (s : List Char) :
    Except PyErr (List Char) :=
  subAux m repl s.length s

/-- `pattern.sub` with a plain string replacement (the variable pre-pass);
modelled for replacement strings without backslash escapes. -/
def pySubStr {α : Type} (m : Pm α) (v : List Char) (s : List Char) :
    List Char :=
  match pySub m (fun _ _ => .ok v) s with
  | .ok t => t
  | .error _ => s

/-- `Color.from_rgb(*args)`: a `TypeError` unless exactly three arguments
(never reachable from group 1 of the compiled patterns). -/
def fromRgbList (args : List ℚ) : Except PyErr Color :=
  match args with
  | [r, g, b] => .ok (fromRgb r g b)
  | _ => .error PyErr.typeError

/-- `HUE_SHIFT(delta)`. -/
def hueShiftOp (c : Color) (args : List ℚ) : Except PyErr Color :=
  match args with
  | [d] => .ok (hueShift c d)
  | _ => .error PyErr.typeError

/-- Modelled from the spec: `Theme.FUNCTIONS` binds `"LERP"` to
`Color.lerp`, an attribute that does not exist in `colors/Color.py` (only
`lerp_target` does); the spec names `lerp_target` as the intended
operation.  Called with parsed floats, `lerp_target(color, *args)` on two
arguments reaches `target.hsv` on a float and raises `AttributeError`
(caught by the rewrite loop); any other count is an arity `TypeError`. -/
def lerpOp (_c : Color) (args : List ℚ) : Except PyErr Color :=
  match args with
  | [_, _] => .error PyErr.attributeError
  | _ => .error PyErr.typeError

/-- `TINT(t)`. -/
def tintOp (c : Color) (args : List ℚ) : Except PyErr Color :=
  match args with
  | [t] => .ok (tint c t)
  | _ => .error PyErr.typeError

/-- `SHADE(t)`. -/
def shadeOp (c : Color) (args : List ℚ) : Except PyErr Color :=
  match args with
  | [t] => .ok (shade c t)
  | _ => .error PyErr.typeError

/-- `COMPLEMENTARY()`. -/
def complementaryOp (c : Color) (args : List ℚ) : Except PyErr Color :=
  match args with
  | [] => .ok (complementary c)
  | _ => .error PyErr.typeError

/-- `TRIADIC(i)`: with no argument the Python default `index=0` applies;
with a parsed float argument, `[...][index % 2]` indexes a list with a
float and raises `TypeError`. -/
def triadicOp (c : Color) (args : List ℚ) : Except PyErr Color :=
  match args with
  | [] => .ok (triadic c 0)
  | _ => .error PyErr.typeError

/-- `TETRADIC(i)` (same float-index behavior as `TRIADIC`). -/
def tetradicOp (c : Color) (args : List ℚ) : Except PyErr Color :=
  match args with
  | [] => .ok (tetradic c 0)
  | _ => .error PyErr.typeError

/-- `ANALOGOUS(i)` (same float-index behavior as `TRIADIC`). -/
def analogousOp (c : Color) (args : List ℚ) : Except PyErr Color :=
  match args with
  | [] => .ok (analogous c 0)
  | _ => .error PyErr.typeError

/-- `HUE(h)`. -/
def setHueOp (c : Color) (args : List ℚ) : Except PyErr Color :=
  match args with
  | [h] => .ok (setHue c h)
  | _ => .error PyErr.typeError

/-- `VAL(v)`. -/
def setValOp (c : Color) (args : List ℚ) : Except PyErr Color :=
  match args with
  | [v] => .ok (setVal c v)
  | _ => .error PyErr.typeError

/-- `SAT(s)`. -/
def setSatOp (c : Color) (args : List ℚ) : Except PyErr Color :=
  match args with
  | [s] => .ok (setSat c s)
  | _ => .error PyErr.typeError

/-- The replacement function `lam(func)` of `process_template`: parse both
groups with `p`, build the color from group 1, apply the operation to the
arguments of group 2, and render the comma-space-joined RGB text. -/
def funcRepl (op : Color → List ℚ → Except PyErr Color)
    (x : List Char × List Char) (_consumed : List Char) :
    Except PyErr (List Char) :=
  match pyFloats x.1 with
  | .error e => .error e
  | .ok a1 =>
      match fromRgbList a1 with
      | .error e => .error e
      | .ok c =>
          match pyFloats x.2 with
          | .error e => .error e
          | .ok a2 =>
              match op c a2 with
              | .error e => .error e
              | .ok res => .ok (tripleText res)

/-- The replacement function `prop(pr)` for the `HEX` property. -/
def hexRepl (g1 : List Char) (_consumed : List Char) :
    Except PyErr (List Char) :=
  match pyFloats g1 with
  | .error e => .error e
  | .ok a1 =>
      match fromRgbList a1 with
      | .error e => .error e
      | .ok c => .ok (hexText c)

/-- The palette bundle built by `Theme.__init__`: indexed colors and the
role map, both built with `Color.from_hex`. -/
structure Theme where
  keys : List Color
  roles : List (List Char × Color)
  deriving Repr

/-- `Theme.__init__` from hex strings. -/
def mkTheme (colors : List (List Char))
    (colorRoles : List (List Char × List Char)) : Theme :=
  ⟨colors.map colorFromHex, colorRoles.map fun p => (p.1, colorFromHex p.2)⟩

/-- `handle_key`: on a hit, the RGB text; a miss produces `None.rgb`, an
`AttributeError` caught inside the handler, which then returns the matched
text unchanged. -/
def keyRepl (th : Theme) (ds : List Char) (consumed : List Char) :
    Except PyErr (List Char) :=
  match th.keys.get? (natVal ds) with
  | some c => .ok (tripleText c)
  | none => .ok consumed

/-- `handle_role` (case-sensitive exact lookup). -/
def roleRepl (th : Theme) (w : List Char) (consumed : List Char) :
    Except PyErr (List Char) :=
  match List.lookup w th.roles with
  | some c => .ok (tripleText c)
  | none => .ok consumed

/-- The `FUNCTIONS` table of `Theme`, in dict insertion order. -/
def funcTable : List (List Char × (Color → List ℚ → Except PyErr Color)) :=
  [("HUE_SHIFT".toList, hueShiftOp), ("LERP".toList, lerpOp),
   ("TINT".toList, tintOp), ("SHADE".toList, shadeOp),
   ("COMPLEMENTARY".toList, complementaryOp), ("TRIADIC".toList, triadicOp),
   ("TETRADIC".toList, tetradicOp), ("ANALOGOUS".toList, analogousOp),
   ("HUE".toList, setHueOp), ("VAL".toList, setValOp),
   ("SAT".toList, setSatOp)]

/-- The ordered `match_to_func` table as substitution actions: the eleven
function patterns, then the `HEX` property pattern, then `ROLE`, then
`KEY`. -/
def rewriters (th : Theme) : List (List Char → Except PyErr (List Char)) :=
  funcTable.map (fun p => pySub (funcM p.1) (funcRepl p.2)) ++
    [pySub hexM hexRepl, pySub roleM (roleRepl th), pySub keyM (keyRepl th)]

/-- One pass of the `for pattern, f in match_to_func.items()` body: each
substitution runs under `try ... except AttributeError: pass`; any other
exception propagates; the change flag is set when some substitution
produced a different text. -/
def passAux : List (List Char → Except PyErr (List Char)) → List Char →
    Bool → Except PyErr (List Char × Bool)
  | [], t, ch => .ok (t, ch)
  | r :: rs, t, ch =>
      match r t with
      | .error PyErr.attributeError => passAux rs t ch
      | .error e => .error e
      | .ok t' => if t' = t then passAux rs t ch else passAux rs t' true

/-- One full pass over all patterns, starting with a clear change flag. -/
def passFlag (th : Theme) (t : List Char) : Except PyErr (List Char × Bool) :=
  passAux (rewriters th) t false

/-- The variable pre-pass: one `re.sub` per dict entry, in order, on the
uppercased name. -/
def prepass (vars : List (List Char × List Char)) (t : List Char) :
    List Char :=
  vars.foldl (fun acc kv => pySubStr (varM (kv.1.map Char.toUpper)) kv.2 acc) t

/-- Termination measure of the rewrite loop: matched construct text always
contains a parenthesis or a dot, while every replacement text (RGB triples
and hex strings) contains neither. -/
def mu (s : List Char) : ℕ := s.count '(' + s.count '.'

/-- The `while change:` loop with explicit fuel.  `processTemplate` runs it
with fuel `mu t + 1`, which the loop theorems prove sufficient; the
big-step relation `LoopRun` below is the faithful (fuel-free) semantics of
the source's unbounded loop. -/
def loopFuel (th : Theme) : ℕ → List Char → Except PyErr (List Char)
  | 0, t => .ok t
  | fuel + 1, t =>
      match passFlag th t with
      | .error e => .error e
      | .ok (t', false) => .ok t'
      | .ok (t', true) => loopFuel th fuel t'

/-- `Theme.process_template`: variable pre-pass once, then the rewrite loop.
A `.error` value is an exception escaping `process_template`. -/
def processTemplate (th : Theme) (vars : List (List Char × List Char))
    (t : List Char) : Except PyErr (List Char) :=
  let t0 := prepass vars t
  loopFuel th (mu t0 + 1) t0

/-- Big-step semantics of the source's `while change:` loop: repeat full
passes while the change flag is set; stop at a pass with a clear flag; an
uncaught exception aborts.  There is no iteration cap in the source. -/
inductive LoopRun (th : Theme) : List Char → Except PyErr (List Char) → Prop
  | err : ∀ {t : List Char} {e : PyErr},
      passFlag th t = .error e → LoopRun th t (.error e)
  | done : ∀ {t t' : List Char},
      passFlag th t = .ok (t', false) → LoopRun th t (.ok t')
  | step : ∀ {t t' : List Char} {r : Except PyErr (List Char)},
      passFlag th t = .ok (t', true) → LoopRun th t' r → LoopRun th t r

/-- `Colors=["#000000"]`, no roles. -/
def themeBlack : Theme := mkTheme ["#000000".toList] []

/-- `Colors=["#ff0000"]`, no roles. -/
def themeRed : Theme := mkTheme ["#ff0000".toList] []

/-- Iterated passes of the rewrite loop: `passStream th n t` is the state
after `n` passes starting from `t` (flag `true` initially, as in the
source, where `change = True` enters the loop). -/
def passStream (th : Theme) : ℕ → List Char → Except PyErr (List Char × Bool)
  | 0, t => .ok (t, true)
  | n + 1, t =>
      match passStream th n t with
      | .ok (t', _) => passFlag th t'
      | .error e => .error e

/-- Hue component of a color, via the `hsv` view. -/
def hueOf (c : Color) : ℚ := (hsvOf c).1

/-- Whether a text is a hex color within rounding distance of white
(every channel at least 254 of 255). -/
def hexApproxWhite (s : List Char) : Bool :=
  match s with
  | ['#', a, b, c, d, e, f] =>
      decide (254 ≤ 16 * hexCharVal a + hexCharVal b) &&
      decide (254 ≤ 16 * hexCharVal c + hexCharVal d) &&
      decide (254 ≤ 16 * hexCharVal e + hexCharVal f)
  | _ => false

/-- The attribute names defined in the class body of `Color`
(`colors/Color.py`): methods, properties and constructors.  `__getattr__`
is instance-level dynamic lookup and does not apply to attribute access on
the class object itself. -/
def colorMethodNames : List (List Char) :=
  ["__init__".toList, "__str__".toList, "__getattr__".toList, "hsv".toList,
   "hex".toList, "rgb".toList, "from_rgb".toList, "from_hex".toList,
   "from_oklch".toList, "set_lightness".toList, "set_chroma".toList,
   "set_hue".toList, "set_sat".toList, "set_val".toList, "hue_shift".toList,
   "hue_shifts".toList, "complementary".toList, "analogous".toList,
   "triadic".toList, "tetradic".toList, "tint".toList, "shade".toList,
   "lerp_target".toList]

/-- The `(DSL name, Color attribute)` pairs of the `Theme.FUNCTIONS` dict
literal, in source order. -/
def registryAttrNames : List (List Char × List Char) :=
  [("HUE_SHIFT".toList, "hue_shift".toList), ("LERP".toList, "lerp".toList),
   ("TINT".toList, "tint".toList), ("SHADE".toList, "shade".toList),
   ("COMPLEMENTARY".toList, "complementary".toList),
   ("TRIADIC".toList, "triadic".toList),
   ("TETRADIC".toList, "tetradic".toList),
   ("ANALOGOUS".toList, "analogous".toList), ("HUE".toList, "set_hue".toList),
   ("VAL".toList, "set_val".toList), ("SAT".toList, "set_sat".toList)]

/-- Evaluation of the `Theme.FUNCTIONS` dict literal at class-definition
time: each value is an attribute lookup on the `Color` class object, which
raises `AttributeError` when the attribute is not defined in the class
body. -/
def buildFunctionsInit : Except PyErr (List (List Char)) :=
  registryAttrNames.mapM fun p =>
    if p.2 ∈ colorMethodNames then .ok p.1 else .error PyErr.attributeError

/-- A matcher whose consumed text is an initial segment of its input. -/
def Splits {α : Type} (m : Pm α) : Prop :=
  ∀ {s : List Char} {a : α} {c r : List Char}, m s = some (a, c, r) → s = c ++ r

/-- A matcher whose consumed text always contains the character `x`. -/
def ConsumedHas (x : Char) {α : Type} (m : Pm α) : Prop :=
  ∀ {s : List Char} {a : α} {c r : List Char}, m s = some (a, c, r) → x ∈ c

/-- A substitution action that, on success, either leaves the text unchanged
or strictly decreases the measure. -/
def RwOk (f : List Char → Except PyErr (List Char)) : Prop :=
  ∀ s out, f s = .ok out → out = s ∨ mu out < mu s

/-! ### Matcher facts: the consumed text is an initial segment of the input -/

theorem prefix_split {c s : List Char} (h : c <+: s) :
    s = c ++ s.drop c.length := (List.prefix_iff_eq_append.mp h).symm

theorem litM_eq {pat s : List Char} {a : Unit} {c r : List Char}
    (h : litM pat s = some (a, c, r)) : c = pat ∧ s = pat ++ r := by
  unfold litM at h
  split at h
  · rename_i hp
    obtain ⟨rfl, rfl, rfl⟩ : pat = c ∧ r = s.drop pat.length ∧ a = () := by
      cases h; exact ⟨rfl, rfl, rfl⟩
    refine ⟨rfl, ?_⟩
    exact prefix_split (List.isPrefixOf_iff_prefix.mp hp)
  · cases h

theorem digitsM_eq {s : List Char} {a c r : List Char}
    (h : digitsM s = some (a, c, r)) :
    a = c ∧ s = c ++ r ∧ c ≠ [] ∧ ∀ x ∈ c, Char.isDigit x := by
  unfold digitsM at h
  dsimp only at h
  split at h
  · cases h
  · rename_i hne
    cases h
    refine ⟨rfl, ?_, by simpa using hne, fun x hx => List.mem_takeWhile_imp hx⟩
    have : s.takeWhile Char.isDigit <+: s := List.takeWhile_prefix _
    exact prefix_split this

theorem wordsM_eq {s : List Char} {a c r : List Char}
    (h : wordsM s = some (a, c, r)) :
    a = c ∧ s = c ++ r ∧ c ≠ [] ∧ ∀ x ∈ c, isWordChar x := by
  unfold wordsM at h
  dsimp only at h
  split at h
  · cases h
  · rename_i hne
    cases h
    refine ⟨rfl, ?_, by simpa using hne, fun x hx => List.mem_takeWhile_imp hx⟩
    exact prefix_split (List.takeWhile_prefix _)

theorem optSpaceM_eq {s : List Char} {a : Unit} {c r : List Char}
    (h : optSpaceM s = some (a, c, r)) : s = c ++ r := by
  unfold optSpaceM at h
  split at h
  · cases h; rfl
  · cases h; rfl

theorem anyNotNL_eq {s : List Char} {a : Char} {c r : List Char}
    (h : anyNotNL s = some (a, c, r)) : s = c ++ r ∧ c = [a] := by
  unfold anyNotNL at h
  split at h
  · cases h
  · split at h
    · cases h
    · cases h; exact ⟨rfl, rfl⟩

theorem upToParenM_eq {s : List Char} {a c r : List Char}
    (h : upToParenM s = some (a, c, r)) : s = c ++ r ∧ ')' ∈ c := by
  unfold upToParenM at h
  dsimp only at h
  split at h
  · rename_i r2 heq
    cases h
    constructor
    · have hs : s = s.takeWhile (fun c => c ≠ ')' && c ≠ '\n') ++
          s.drop (s.takeWhile (fun c => c ≠ ')' && c ≠ '\n')).length :=
        prefix_split (List.takeWhile_prefix _)
      rw [heq] at hs
      simpa using hs
    · simp
  · cases h

theorem boundaryM_eq {s : List Char} {a : Unit} {c r : List Char}
    (h : boundaryM s = some (a, c, r)) : s = c ++ r ∧ c = [] := by
  unfold boundaryM at h
  split at h
  · cases h; exact ⟨rfl, rfl⟩
  · split at h
    · cases h
    · cases h; exact ⟨rfl, rfl⟩

theorem andM_eq {α β : Type} {p : Pm α} {q : Pm β} {s : List Char}
    {ab : α × β} {c r : List Char} (h : andM p q s = some (ab, c, r))
    (hp : ∀ {s' a' c' r'}, p s' = some (a', c', r') → s' = c' ++ r')
    (hq : ∀ {s' b' c' r'}, q s' = some (b', c', r') → s' = c' ++ r') :
    s = c ++ r ∧ ∃ c1 c2, c = c1 ++ c2 ∧
      (∃ r1, p s = some (ab.1, c1, r1) ∧ q r1 = some (ab.2, c2, r)) := by
  unfold andM at h
  split at h
  · cases h
  · rename_i a c1 r1 hpeq
    split at h
    · cases h
    · rename_i b c2 r2 hqeq
      cases h
      have h1 := hp hpeq
      have h2 := hq hqeq
      refine ⟨?_, c1, c2, rfl, r1, hpeq, hqeq⟩
      rw [h1, h2, List.append_assoc]

theorem pmap_eq {α β : Type} {f : α → β} {p : Pm α} {s : List Char}
    {b : β} {c r : List Char} (h : pmap f p s = some (b, c, r)) :
    ∃ a, p s = some (a, c, r) ∧ b = f a := by
  unfold pmap at h
  split at h
  · cases h
  · rename_i a c' r' hp
    cases h
    exact ⟨a, hp, rfl⟩

theorem withText_eq {α : Type} {p : Pm α} {s : List Char}
    {g c r : List Char} (h : withText p s = some (g, c, r)) :
    g = c ∧ ∃ a, p s = some (a, c, r) := by
  unfold withText at h
  split at h
  · cases h
  · rename_i a c' r' hp
    cases h
    exact ⟨rfl, a, hp⟩

theorem splits_lit {pat : List Char} : Splits (litM pat) :=
  fun h => by rw [(litM_eq h).2, (litM_eq h).1]

theorem splits_digits : Splits digitsM := fun h => (digitsM_eq h).2.1

theorem splits_words : Splits wordsM := fun h => (wordsM_eq h).2.1

theorem splits_optSpace : Splits optSpaceM := fun h => optSpaceM_eq h

theorem splits_anyNotNL : Splits anyNotNL := fun h => (anyNotNL_eq h).1

theorem splits_upToParen : Splits upToParenM := fun h => (upToParenM_eq h).1

theorem splits_boundary : Splits boundaryM := fun h => (boundaryM_eq h).1

theorem splits_and {α β : Type} {p : Pm α} {q : Pm β}
    (hp : Splits p) (hq : Splits q) : Splits (andM p q) := by
  intro s ab c r h
  exact (andM_eq h (fun h' => hp h') (fun h' => hq h')).1

theorem splits_pmap {α β : Type} {f : α → β} {p : Pm α}
    (hp : Splits p) : Splits (pmap f p) := by
  intro s b c r h
  obtain ⟨a, ha, -⟩ := pmap_eq h
  exact hp ha

theorem splits_withText {α : Type} {p : Pm α}
    (hp : Splits p) : Splits (withText p) := by
  intro s g c r h
  obtain ⟨-, a, ha⟩ := withText_eq h
  exact hp ha

theorem consumedHas_lit {x : Char} {pat : List Char} (hx : x ∈ pat) :
    ConsumedHas x (litM pat) := fun h => by rw [(litM_eq h).1]; exact hx

theorem consumedHas_and_left {x : Char} {α β : Type} {p : Pm α} {q : Pm β}
    (hp : ConsumedHas x p) : ConsumedHas x (andM p q) := by
  intro s ab c r h
  unfold andM at h
  split at h
  · cases h
  · rename_i a c1 r1 hpeq
    split at h
    · cases h
    · cases h
      exact List.mem_append_left _ (hp hpeq)

theorem consumedHas_and_right {x : Char} {α β : Type} {p : Pm α} {q : Pm β}
    (hq : ConsumedHas x q) : ConsumedHas x (andM p q) := by
  intro s ab c r h
  unfold andM at h
  split at h
  · cases h
  · rename_i a c1 r1 hpeq
    split at h
    · cases h
    · rename_i b c2 r2 hqeq
      cases h
      exact List.mem_append_right _ (hq hqeq)

theorem consumedHas_pmap {x : Char} {α β : Type} {f : α → β} {p : Pm α}
    (hp : ConsumedHas x p) : ConsumedHas x (pmap f p) := by
  intro s b c r h
  obtain ⟨a, ha, -⟩ := pmap_eq h
  exact hp ha

theorem consumedHas_withText {x : Char} {α : Type} {p : Pm α}
    (hp : ConsumedHas x p) : ConsumedHas x (withText p) := by
  intro s g c r h
  obtain ⟨-, a, ha⟩ := withText_eq h
  exact hp ha

theorem splits_triple : Splits tripleM :=
  splits_withText (splits_and splits_digits (splits_and splits_lit
    (splits_and splits_optSpace (splits_and splits_digits
      (splits_and splits_lit (splits_and splits_optSpace splits_digits))))))

theorem consumedHas_triple : ConsumedHas ',' tripleM :=
  consumedHas_withText (consumedHas_and_right (consumedHas_and_left
    (consumedHas_lit (by decide))))

theorem splits_func {name : List Char} : Splits (funcM name) :=
  splits_pmap (splits_and (splits_and splits_triple splits_lit)
    splits_upToParen)

theorem consumedHas_func_dot {name : List Char} :
    ConsumedHas '.' (funcM name) :=
  consumedHas_pmap (consumedHas_and_left (consumedHas_and_right
    (consumedHas_lit (List.mem_cons_self _ _))))

theorem consumedHas_func_comma {name : List Char} :
    ConsumedHas ',' (funcM name) :=
  consumedHas_pmap (consumedHas_and_left (consumedHas_and_left
    consumedHas_triple))

theorem splits_hexm : Splits hexM :=
  splits_pmap (splits_and (splits_and splits_triple splits_lit)
    splits_boundary)

theorem consumedHas_hexm_dot : ConsumedHas '.' hexM :=
  consumedHas_pmap (consumedHas_and_left (consumedHas_and_right
    (consumedHas_lit (by decide))))

theorem consumedHas_hexm_comma : ConsumedHas ',' hexM :=
  consumedHas_pmap (consumedHas_and_left (consumedHas_and_left
    consumedHas_triple))

theorem splits_rolem : Splits roleM :=
  splits_pmap (splits_and (splits_and splits_lit splits_words) splits_lit)

theorem consumedHas_rolem_paren : ConsumedHas '(' roleM :=
  consumedHas_pmap (consumedHas_and_left (consumedHas_and_left
    (consumedHas_lit (by decide))))

theorem consumedHas_rolem_r : ConsumedHas 'R' roleM :=
  consumedHas_pmap (consumedHas_and_left (consumedHas_and_left
    (consumedHas_lit (by decide))))

theorem splits_keym : Splits keyM :=
  splits_pmap (splits_and (splits_and splits_lit splits_digits) splits_lit)

theorem consumedHas_keym_paren : ConsumedHas '(' keyM :=
  consumedHas_pmap (consumedHas_and_left (consumedHas_and_left
    (consumedHas_lit (by decide))))

theorem consumedHas_keym_k : ConsumedHas 'K' keyM :=
  consumedHas_pmap (consumedHas_and_left (consumedHas_and_left
    (consumedHas_lit (by decide))))

theorem splits_varm {uname : List Char} : Splits (varM uname) :=
  splits_pmap (splits_and (splits_and splits_lit splits_anyNotNL) splits_lit)

theorem consumedHas_varm_r {uname : List Char} :
    ConsumedHas 'R' (varM uname) :=
  consumedHas_pmap (consumedHas_and_right (consumedHas_lit (by decide)))

/-! ### The substitution scan: measure monotonicity and identity lemmas -/

theorem mu_append (a b : List Char) : mu (a ++ b) = mu a + mu b := by
  simp [mu, List.count_append]
  omega

theorem mu_cons (x : Char) (l : List Char) : mu (x :: l) = mu [x] + mu l := by
  rw [show (x :: l) = [x] ++ l from rfl, mu_append]

theorem mu_pos_of_paren {c : List Char} (h : '(' ∈ c) : 0 < mu c := by
  have := List.count_pos_iff.mpr h
  unfold mu
  omega

theorem mu_pos_of_dot {c : List Char} (h : '.' ∈ c) : 0 < mu c := by
  have := List.count_pos_iff.mpr h
  unfold mu
  omega

theorem subAux_mu {α : Type} {m : Pm α}
    {repl : α → List Char → Except PyErr (List Char)}
    (hm : Splits m)
    (hr : ∀ {s' : List Char} {a : α} {c r out : List Char},
      m s' = some (a, c, r) → repl a c = .ok out → out = c ∨ mu out < mu c) :
    ∀ (fuel : ℕ) (s out : List Char), s.length ≤ fuel →
      subAux m repl fuel s = .ok out → out = s ∨ mu out < mu s := by
  intro fuel
  induction fuel with
  | zero =>
      intro s out _ h
      simp only [subAux] at h
      cases h
      exact Or.inl rfl
  | succ n ih =>
      intro s out hlen h
      cases s with
      | nil =>
          simp only [subAux] at h
          cases h
          exact Or.inl rfl
      | cons c cs =>
          have hcs : cs.length ≤ n := by
            simp only [List.length_cons] at hlen
            omega
          simp only [subAux] at h
          cases hm' : m (c :: cs) with
          | none =>
              rw [hm'] at h
              cases hsub : subAux m repl n cs with
              | error e => rw [hsub] at h; simp [Except.map] at h
              | ok t =>
                  rw [hsub] at h
                  simp only [Except.map] at h
                  cases h
                  rcases ih cs t hcs hsub with rfl | hlt
                  · exact Or.inl rfl
                  · right
                    rw [mu_cons, mu_cons c cs]
                    omega
          | some x =>
              obtain ⟨a, con, rest⟩ := x
              rw [hm'] at h
              dsimp only at h
              cases con with
              | nil =>
                  cases hsub : subAux m repl n cs with
                  | error e => rw [hsub] at h; simp [Except.map] at h
                  | ok t =>
                      rw [hsub] at h
                      simp only [Except.map] at h
                      cases h
                      rcases ih cs t hcs hsub with rfl | hlt
                      · exact Or.inl rfl
                      · right
                        rw [mu_cons, mu_cons c cs]
                        omega
              | cons c0 c1 =>
                  have hsplit := hm hm'
                  cases hrep : repl a (c0 :: c1) with
                  | error e => rw [hrep] at h; simp at h
                  | ok rr =>
                      rw [hrep] at h
                      cases hsub : subAux m repl n rest with
                      | error e => rw [hsub] at h; simp at h
                      | ok t =>
                          rw [hsub] at h
                          dsimp only at h
                          cases h
                          have hrest : rest.length ≤ n := by
                            have := congrArg List.length hsplit
                            simp [List.length_append] at this
                            omega
                          have h1 := hr hm' hrep
                          have h2 := ih rest t hrest hsub
                          rw [hsplit, mu_append]
                          rw [mu_append]
                          rcases h1 with rfl | hlt1 <;> rcases h2 with rfl | hlt2
                          · exact Or.inl rfl
                          · right; omega
                          · right; omega
                          · right; omega

theorem subAux_nomatch {α : Type} {m : Pm α}
    {repl : α → List Char → Except PyErr (List Char)} :
    ∀ (fuel : ℕ) (s : List Char), (∀ s', s' <:+ s → m s' = none) →
      subAux m repl fuel s = .ok s := by
  intro fuel
  induction fuel with
  | zero => intro s _; simp [subAux]
  | succ n ih =>
      intro s hno
      cases s with
      | nil => simp [subAux]
      | cons c cs =>
          simp only [subAux]
          rw [hno (c :: cs) (List.suffix_refl _)]
          rw [ih cs (fun s' hs' => hno s' (hs'.trans (List.suffix_cons c cs)))]
          rfl

theorem pySub_mu {α : Type} {m : Pm α}
    {repl : α → List Char → Except PyErr (List Char)}
    (hm : Splits m)
    (hr : ∀ {s' : List Char} {a : α} {c r out : List Char},
      m s' = some (a, c, r) → repl a c = .ok out → out = c ∨ mu out < mu c)
    {s out : List Char} (h : pySub m repl s = .ok out) :
    out = s ∨ mu out < mu s :=
  subAux_mu hm (fun h1 h2 => hr h1 h2) s.length s out le_rfl h

theorem pySub_id_of_not_mem {α : Type} {m : Pm α}
    {repl : α → List Char → Except PyErr (List Char)} {x : Char}
    (hx : ConsumedHas x m) (hm : Splits m) {s : List Char} (h : x ∉ s) :
    pySub m repl s = .ok s := by
  apply subAux_nomatch
  intro s' hs'
  cases hm' : m s' with
  | none => rfl
  | some y =>
      obtain ⟨a, c, r⟩ := y
      exfalso
      apply h
      apply hs'.subset
      rw [hm hm']
      exact List.mem_append_left _ (hx hm')

/-! ### Replacement texts: character sets and measure zero -/

theorem digitChar_mem (d : ℕ) : digitChar d ∈ "0123456789".toList := by
  unfold digitChar
  by_cases hd : d < ("0123456789".toList).length
  · rw [List.getD_eq_getElem _ _ hd]
    exact List.getElem_mem _
  · rw [List.getD_eq_default _ _ (Nat.le_of_not_lt hd)]
    decide

theorem natCharsAux_subset {fuel n : ℕ} {x : Char}
    (hx : x ∈ natCharsAux fuel n) : x ∈ "0123456789".toList := by
  induction fuel generalizing n with
  | zero => cases hx
  | succ m ih =>
      unfold natCharsAux at hx
      split at hx
      · rw [List.mem_singleton] at hx
        rw [hx]
        exact digitChar_mem _
      · rcases List.mem_append.mp hx with h | h
        · exact ih h
        · rw [List.mem_singleton] at h
          rw [h]
          exact digitChar_mem _

theorem intChars_subset {i : ℤ} {x : Char} (hx : x ∈ intChars i) :
    x ∈ "-0123456789".toList := by
  unfold intChars at hx
  split at hx
  · rcases List.mem_cons.mp hx with h | h
    · rw [h]; decide
    · have := natCharsAux_subset h
      simp only [String.toList] at this ⊢
      simp at this ⊢
      tauto
  · have := natCharsAux_subset hx
    simp only [String.toList] at this ⊢
    simp at this ⊢
    tauto

theorem tripleText_subset {c : Color} {x : Char} (hx : x ∈ tripleText c) :
    x ∈ "-0123456789, ".toList := by
  unfold tripleText at hx
  have sep : ∀ y ∈ ", ".toList, y ∈ "-0123456789, ".toList := by decide
  have dig : ∀ {i : ℤ}, x ∈ intChars i → x ∈ "-0123456789, ".toList := by
    intro i h
    have := intChars_subset h
    simp at this ⊢
    tauto
  rcases List.mem_append.mp hx with h | h
  · rcases List.mem_append.mp h with h' | h'
    · rcases List.mem_append.mp h' with h'' | h''
      · rcases List.mem_append.mp h'' with h3 | h3
        · exact dig h3
        · exact sep _ h3
      · exact dig h''
    · exact sep _ h'
  · exact dig h

theorem tripleText_mu (c : Color) : mu (tripleText c) = 0 := by
  unfold mu
  rw [List.count_eq_zero.mpr, List.count_eq_zero.mpr]
  · intro h
    have := tripleText_subset h
    simp at this
  · intro h
    have := tripleText_subset h
    simp at this

theorem hexDigit_mem (d : ℕ) : hexDigit d ∈ "0123456789abcdef".toList := by
  unfold hexDigit
  by_cases hd : d < ("0123456789abcdef".toList).length
  · rw [List.getD_eq_getElem _ _ hd]
    exact List.getElem_mem _
  · rw [List.getD_eq_default _ _ (Nat.le_of_not_lt hd)]
    decide

theorem hexText_subset {c : Color} {x : Char} (hx : x ∈ hexText c) :
    x ∈ "#0123456789abcdef".toList := by
  unfold hexText at hx
  have dig : ∀ {n : ℕ}, x ∈ hexPair n → x ∈ "#0123456789abcdef".toList := by
    intro n h
    unfold hexPair at h
    have : x = hexDigit (n / 16) ∨ x = hexDigit (n % 16) := by
      simpa using h
    rcases this with h' | h' <;>
      · rw [h']
        have := hexDigit_mem (n / 16)
        have := hexDigit_mem (n % 16)
        simp_all
  rcases List.mem_cons.mp hx with h | h
  · rw [h]; decide
  · rcases List.mem_append.mp h with h' | h'
    · rcases List.mem_append.mp h' with h'' | h''
      · exact dig h''
      · exact dig h''
    · exact dig h'

theorem hexText_mu (c : Color) : mu (hexText c) = 0 := by
  unfold mu
  rw [List.count_eq_zero.mpr, List.count_eq_zero.mpr]
  · intro h
    have := hexText_subset h
    simp at this
  · intro h
    have := hexText_subset h
    simp at this

/-! ### Every substitution action of the loop preserves the measure -/

theorem funcRepl_ok {op : Color → List ℚ → Except PyErr Color}
    {x : List Char × List Char} {con out : List Char}
    (h : funcRepl op x con = .ok out) : ∃ res, out = tripleText res := by
  unfold funcRepl at h
  split at h
  · cases h
  · split at h
    · cases h
    · split at h
      · cases h
      · split at h
        · cases h
        · cases h
          rename_i res _
          exact ⟨_, rfl⟩

theorem hexRepl_ok {g1 con out : List Char} (h : hexRepl g1 con = .ok out) :
    ∃ c, out = hexText c := by
  unfold hexRepl at h
  split at h
  · cases h
  · split at h
    · cases h
    · cases h
      exact ⟨_, rfl⟩

theorem rwOk_func (name : List Char)
    (op : Color → List ℚ → Except PyErr Color) :
    RwOk (pySub (funcM name) (funcRepl op)) := by
  intro s out h
  refine pySub_mu splits_func ?_ h
  intro s' a c r out' hm' hrep
  right
  obtain ⟨res, rfl⟩ := funcRepl_ok hrep
  rw [tripleText_mu]
  exact mu_pos_of_dot (consumedHas_func_dot hm')

theorem rwOk_hex : RwOk (pySub hexM hexRepl) := by
  intro s out h
  refine pySub_mu splits_hexm ?_ h
  intro s' a c r out' hm' hrep
  right
  obtain ⟨cc, rfl⟩ := hexRepl_ok hrep
  rw [hexText_mu]
  exact mu_pos_of_dot (consumedHas_hexm_dot hm')

theorem rwOk_role (th : Theme) : RwOk (pySub roleM (roleRepl th)) := by
  intro s out h
  refine pySub_mu splits_rolem ?_ h
  intro s' a c r out' hm' hrep
  unfold roleRepl at hrep
  split at hrep
  · cases hrep
    right
    rw [tripleText_mu]
    exact mu_pos_of_paren (consumedHas_rolem_paren hm')
  · cases hrep
    exact Or.inl rfl

theorem rwOk_key (th : Theme) : RwOk (pySub keyM (keyRepl th)) := by
  intro s out h
  refine pySub_mu splits_keym ?_ h
  intro s' a c r out' hm' hrep
  unfold keyRepl at hrep
  split at hrep
  · cases hrep
    right
    rw [tripleText_mu]
    exact mu_pos_of_paren (consumedHas_keym_paren hm')
  · cases hrep
    exact Or.inl rfl

theorem rewriters_ok (th : Theme) : ∀ f ∈ rewriters th, RwOk f := by
  intro f hf
  unfold rewriters funcTable at hf
  simp only [List.map_cons, List.map_nil, List.cons_append, List.nil_append,
    List.mem_cons, List.not_mem_nil, or_false] at hf
  rcases hf with rfl | rfl | rfl | rfl | rfl | rfl | rfl | rfl | rfl | rfl |
    rfl | rfl | rfl | rfl
  · exact rwOk_func _ _
  · exact rwOk_func _ _
  · exact rwOk_func _ _
  · exact rwOk_func _ _
  · exact rwOk_func _ _
  · exact rwOk_func _ _
  · exact rwOk_func _ _
  · exact rwOk_func _ _
  · exact rwOk_func _ _
  · exact rwOk_func _ _
  · exact rwOk_func _ _
  · exact rwOk_hex
  · exact rwOk_role th
  · exact rwOk_key th

/-! ### Pass and loop lemmas -/

theorem passAux_ok {rs : List (List Char → Except PyErr (List Char))}
    (hok : ∀ f ∈ rs, RwOk f) :
    ∀ {t : List Char} {ch : Bool} {t' : List Char} {ch' : Bool},
      passAux rs t ch = .ok (t', ch') →
      (t' = t ∨ mu t' < mu t) ∧ (ch' = false → ch = false ∧ t' = t) ∧
        (ch = false → ch' = true → mu t' < mu t) := by
  induction rs with
  | nil =>
      intro t ch t' ch' h
      cases h
      exact ⟨Or.inl rfl, fun hc => ⟨hc, rfl⟩, fun h1 h2 => by
        rw [h1] at h2; cases h2⟩
  | cons r rs ih =>
      intro t ch t' ch' h
      have hr : RwOk r := hok r (List.mem_cons_self _ _)
      have hrs : ∀ f ∈ rs, RwOk f := fun f hf =>
        hok f (List.mem_cons_of_mem _ hf)
      unfold passAux at h
      cases he : r t with
      | error e =>
          rw [he] at h
          cases e with
          | valueError => cases h
          | typeError => cases h
          | attributeError => exact ih hrs h
      | ok t2 =>
          rw [he] at h
          dsimp only at h
          by_cases h2 : t2 = t
          · rw [if_pos h2] at h
            exact ih hrs h
          · rw [if_neg h2] at h
            have hlt : mu t2 < mu t := by
              rcases hr t t2 he with h3 | h3
              · exact absurd h3 h2
              · exact h3
            have := ih hrs h
            rcases this with ⟨c1, c2, -⟩
            refine ⟨?_, ?_, ?_⟩
            · right
              rcases c1 with rfl | c1'
              · exact hlt
              · exact c1'.trans hlt
            · intro hc
              rcases c2 hc with ⟨hfalse, -⟩
              cases hfalse
            · intro _ _
              rcases c1 with rfl | c1'
              · exact hlt
              · exact c1'.trans hlt

theorem passFlag_false {th : Theme} {t t' : List Char}
    (h : passFlag th t = .ok (t', false)) : t' = t :=
  ((passAux_ok (rewriters_ok th) h).2.1 rfl).2

theorem passFlag_true {th : Theme} {t t' : List Char}
    (h : passFlag th t = .ok (t', true)) : mu t' < mu t :=
  (passAux_ok (rewriters_ok th) h).2.2 rfl rfl

/-- The fuel `mu t + 1` used by `processTemplate` is enough: the executable
loop computes exactly the big-step result of the source's unbounded
`while change:` loop. -/
theorem loopFuel_run (th : Theme) :
    ∀ (fuel : ℕ) (t : List Char), mu t < fuel →
      LoopRun th t (loopFuel th fuel t) := by
  intro fuel
  induction fuel with
  | zero => intro t h; cases h
  | succ n ih =>
      intro t h
      unfold loopFuel
      cases hp : passFlag th t with
      | error e => exact LoopRun.err hp
      | ok x =>
          obtain ⟨t', ch⟩ := x
          cases ch with
          | false => exact LoopRun.done hp
          | true =>
              have hlt := passFlag_true hp
              exact LoopRun.step hp (ih t' (by omega))

/-! ### Claim theorems -/

/-- C1 (counterexample): the claim says a template that regenerates a
matchable pattern on every pass makes the loop stop at a configured
iteration cap with a NonTermination condition.  In the code there is no cap
and no such template can exist: no template makes every pass of the rewrite
loop report a change forever, because every changing pass strictly
decreases the number of parentheses and dots in the text. -/
theorem c1_counterexample_no_regenerating_template :
    ¬ ∃ t : List Char, ∀ n : ℕ, ∃ t',
      passStream themeBlack n t = .ok (t', true) := by
  rintro ⟨t, hreg⟩
  have key : ∀ (n : ℕ) (t' : List Char),
      passStream themeBlack n t = .ok (t', true) → mu t' + n ≤ mu t + 1 := by
    intro n
    induction n with
    | zero =>
        intro t' h
        unfold passStream at h
        cases h
        omega
    | succ m ih =>
        intro t' h
        obtain ⟨t2, h2⟩ := hreg m
        unfold passStream at h
        rw [h2] at h
        dsimp only at h
        have h3 := passFlag_true h
        have h4 := ih t2 h2
        omega
  obtain ⟨t', h'⟩ := hreg (mu t + 2)
  have := key _ _ h'
  omega

/-- C1 (amended): `process_template`'s loop repeats full passes until a pass
produces zero substitutions (clear change flag); there is no configured
iteration cap and no NonTermination condition.  For every palette, variable
map and template, the source's unbounded `while change:` loop terminates:
its big-step semantics holds of the result `processTemplate` computes,
reaching either a fixed-point pass or an uncaught exception. -/
theorem c1_loop_terminates_without_cap (th : Theme)
    (vars : List (List Char × List Char)) (t : List Char) :
    LoopRun th (prepass vars t) (processTemplate th vars t) := by
  unfold processTemplate
  exact loopFuel_run th _ _ (Nat.lt_succ_self _)

/-- C2: the claim says a malformed numeric argument is a recoverable
per-occurrence failure and no exception escapes `process_template`.  In the
code, `float("x")` raises `ValueError`, while the loop catches only
`AttributeError`, so rendering `"1, 2, 3.TINT(x)"` raises `ValueError` out
of `process_template` (the source's own comment `pass  # no substitution on
error` documents the intended recovery). -/
theorem c2_valueerror_escapes :
    processTemplate themeBlack [] "1, 2, 3.TINT(x)".toList =
      .error PyErr.valueError := by decide

/-- C3: the claim says every registry entry is bound to an existing
ColorModel operation, in particular LERP to `lerp_target`.  The dict
literal `Theme.FUNCTIONS` references `Color.lerp`, which is not defined in
the class body of `Color` (only `lerp_target` is), so evaluating the
registry at class-definition time raises `AttributeError` and the module
cannot even be imported. -/
theorem c3_lerp_attribute_error :
    buildFunctionsInit = .error PyErr.attributeError ∧
      "lerp".toList ∉ colorMethodNames ∧
      "lerp_target".toList ∈ colorMethodNames := by decide

/-- C4 (counterexample): the claim says rendering `KEY(0).TINT(1.0).HEX`
against `Colors=["#000000"]` yields approximately white (`ffffff`).  The
code yields exactly `#ff0000` (pure red), which is not within rounding
distance of white: `tint` raises saturation and value toward 1, so black
(h=0, s=0, v=0) becomes (h=0, s=1, v=1) = red. -/
theorem c4_counterexample_black_tint_not_white :
    processTemplate themeBlack [] "KEY(0).TINT(1.0).HEX".toList =
      .ok "#ff0000".toList ∧
      hexApproxWhite "#ff0000".toList = false := by decide

/-- C4 (amended): rendering `KEY(0).TINT(1.0).HEX` against
`Colors=["#000000"]` produces exactly `#ff0000`: `tint(1.0)` of black is
HSV (0, 1, 1), i.e. pure red (RGB triple (1, 0, 0) on the 0..1 scale), and
the hex view carries a leading `#`. -/
theorem c4_black_tint_hex_is_red :
    processTemplate themeBlack [] "KEY(0).TINT(1.0).HEX".toList =
      .ok "#ff0000".toList ∧
      tint (colorFromHex "#000000".toList) 1 = ⟨1, 0, 0⟩ ∧
      rgb255 (tint (colorFromHex "#000000".toList) 1) = (255, 0, 0) := by
  decide

/-- C5 (counterexample): the claim says rendering `KEY(0).HEX` against
`Colors=["#ff0000"]` produces exactly the text `ff0000`.  The code produces
`#ff0000`: the hex view keeps the leading `#`. -/
theorem c5_counterexample_hex_keeps_hash :
    processTemplate themeRed [] "KEY(0).HEX".toList = .ok "#ff0000".toList ∧
      "#ff0000".toList ≠ "ff0000".toList := by decide

/-- C6 (counterexample): the claim says any case-insensitive occurrence of
the variable name is replaced.  The pre-pass uppercases the name and then
matches case-sensitively, so with variables `{"a": "X"}` the template
`a.REPLACE` (lowercase occurrence) is left unchanged rather than rewritten
to `X`. -/
theorem c6_counterexample_lowercase_not_replaced :
    processTemplate themeBlack [("a".toList, "X".toList)]
        "a.REPLACE".toList = .ok "a.REPLACE".toList ∧
      "a.REPLACE".toList ≠ "X".toList := by decide

/-- C6 (amended): the variable pre-pass runs exactly once before the loop
and is non-recursive; the variable name is uppercased (so the map key's
case is irrelevant) and exactly the uppercase spelling in the template is
replaced; the substituted value is never re-scanned: variables
`{"A": "B.REPLACE"}` (or `{"a": ...}`) on template `A.REPLACE` yield
`B.REPLACE` verbatim. -/
theorem c6_prepass_once_uppercase_nonrecursive :
    processTemplate themeBlack [("A".toList, "B.REPLACE".toList)]
        "A.REPLACE".toList = .ok "B.REPLACE".toList ∧
      processTemplate themeBlack [("a".toList, "B.REPLACE".toList)]
        "A.REPLACE".toList = .ok "B.REPLACE".toList := by decide

/-- C10 (counterexample): the claim says any single character between the
uppercased name and `REPLACE` is matched.  The unescaped regex dot does not
match a newline, so with variables `{"a": "X"}` the template
`"A\nREPLACE"` is left unchanged. -/
theorem c10_counterexample_newline_not_matched :
    processTemplate themeBlack [("a".toList, "X".toList)]
        "A\nREPLACE".toList = .ok "A\nREPLACE".toList := by decide

theorem subAux_nil {α : Type} {m : Pm α}
    {repl : α → List Char → Except PyErr (List Char)} (fuel : ℕ) :
    subAux m repl fuel [] = .ok [] := by
  cases fuel <;> simp [subAux]

/-- When the matcher consumes the whole (nonempty) input at its head, the
scan is a single replacement. -/
theorem pySub_whole {α : Type} {m : Pm α}
    {repl : α → List Char → Except PyErr (List Char)}
    {c0 : Char} {cs : List Char} {a : α} {out : List Char}
    (hm : m (c0 :: cs) = some (a, c0 :: cs, []))
    (hr : repl a (c0 :: cs) = .ok out) :
    pySub m repl (c0 :: cs) = .ok out := by
  unfold pySub
  rw [List.length_cons]
  simp only [subAux]
  rw [hm]
  dsimp only
  rw [hr, subAux_nil]
  simp

/-- C10 (amended): in the variable pre-pass, the separator between the
uppercased name and `REPLACE` is matched as any single character except a
newline: for every non-newline character `c`, the template
`"A" ++ c ++ "REPLACE"` with variables `{"a": "X"}` rewrites to `"X"`. -/
theorem c10_any_separator_except_newline (c : Char) (hc : c ≠ '\n') :
    processTemplate themeBlack [("a".toList, "X".toList)]
      ('A' :: c :: "REPLACE".toList) = .ok "X".toList := by
  have hvar : varM (List.map Char.toUpper "a".toList)
      ('A' :: c :: "REPLACE".toList) =
      some ((), 'A' :: c :: "REPLACE".toList, []) := by
    unfold varM pmap andM litM anyNotNL
    simp [List.isPrefixOf, hc]
  have hpre : prepass [("a".toList, "X".toList)]
      ('A' :: c :: "REPLACE".toList) = "X".toList := by
    unfold prepass
    simp only [List.foldl]
    unfold pySubStr
    rw [pySub_whole hvar rfl]
  unfold processTemplate
  rw [hpre]
  decide

/-- C10 (witness): instance of the amended claim at the separator `Q`:
`"AQREPLACE"` rewrites to `"X"`. -/
theorem c10_any_separator_except_newline_witness :
    processTemplate themeBlack [("a".toList, "X".toList)]
      ('A' :: 'Q' :: "REPLACE".toList) = .ok "X".toList :=
  c10_any_separator_except_newline 'Q' (by decide)

/-- C5 (amended): rendering `KEY(0).HEX` against `Colors=["#ff0000"]`
produces exactly `#ff0000`; in general the hex view is a `#` followed by
six lowercase hexadecimal digits. -/
theorem c5_hex_view_hash_lowercase :
    processTemplate themeRed [] "KEY(0).HEX".toList = .ok "#ff0000".toList ∧
      ∀ c : Color, (hexText c).length = 7 ∧ (hexText c).head? = some '#' ∧
        (hexText c).tail.all
          (fun x => decide (x ∈ "0123456789abcdef".toList)) = true := by
  refine ⟨by decide, fun c => ⟨?_, ?_, ?_⟩⟩
  · simp [hexText, hexPair]
  · simp [hexText]
  · rw [List.all_eq_true]
    intro x hx
    rw [decide_eq_true_iff]
    unfold hexText at hx
    simp only [List.tail_cons] at hx
    have dig : ∀ {n : ℕ}, x ∈ hexPair n → x ∈ "0123456789abcdef".toList := by
      intro n h
      unfold hexPair at h
      have : x = hexDigit (n / 16) ∨ x = hexDigit (n % 16) := by simpa using h
      rcases this with h' | h'
      · rw [h']; exact hexDigit_mem _
      · rw [h']; exact hexDigit_mem _
    rcases List.mem_append.mp hx with h | h
    · rcases List.mem_append.mp h with h' | h'
      · exact dig h'
      · exact dig h'
    · exact dig h

/-! ### Exact matcher evaluations on well-formed text -/

theorem litM_exact (pat r : List Char) :
    litM pat (pat ++ r) = some ((), pat, r) := by
  unfold litM
  rw [if_pos (List.isPrefixOf_iff_prefix.mpr (List.prefix_append _ _)),
    List.drop_left]

theorem mem_digits_isDigit {x : Char} (h : x ∈ "0123456789".toList) :
    x.isDigit := by
  simp at h
  rcases h with rfl | rfl | rfl | rfl | rfl | rfl | rfl | rfl | rfl | rfl <;>
    decide

theorem digitsM_exact {ds r : List Char} (h1 : ds ≠ [])
    (h2 : ∀ x ∈ ds, Char.isDigit x)
    (h3 : r.takeWhile Char.isDigit = []) :
    digitsM (ds ++ r) = some (ds, ds, r) := by
  unfold digitsM
  have ht : (ds ++ r).takeWhile Char.isDigit = ds := by
    rw [List.takeWhile_append_of_pos h2, h3, List.append_nil]
  rw [ht]
  dsimp only
  rw [if_neg (by simpa using h1)]
  rw [List.drop_left]

theorem andM_exact {α β : Type} {p : Pm α} {q : Pm β} {s : List Char}
    {a : α} {c1 r1 : List Char} {b : β} {c2 r2 : List Char}
    (hp : p s = some (a, c1, r1)) (hq : q r1 = some (b, c2, r2)) :
    andM p q s = some ((a, b), c1 ++ c2, r2) := by
  unfold andM
  rw [hp]
  dsimp only
  rw [hq]

theorem withText_exact {α : Type} {p : Pm α} {s : List Char} {a : α}
    {c r : List Char} (hp : p s = some (a, c, r)) :
    withText p s = some (c, c, r) := by
  unfold withText
  rw [hp]

theorem optSpaceM_space (r : List Char) :
    optSpaceM (' ' :: r) = some ((), [' '], r) := rfl

theorem natChars_ne_nil (n : ℕ) : natChars n ≠ [] := by
  unfold natChars natCharsAux
  split
  · simp
  · simp

theorem natChars_digits {n : ℕ} {x : Char} (hx : x ∈ natChars n) :
    Char.isDigit x := mem_digits_isDigit (natCharsAux_subset hx)

/-- The triple pattern fully matches the rendered RGB text of a color whose
components are non-negative. -/
theorem tripleM_matches_tripleText {c : Color}
    (h1 : 0 ≤ (rgb255 c).1) (h2 : 0 ≤ (rgb255 c).2.1)
    (h3 : 0 ≤ (rgb255 c).2.2) :
    tripleM (tripleText c) = some (tripleText c, tripleText c, []) := by
  obtain ⟨A, B, C⟩ : ℤ × ℤ × ℤ := rgb255 c
  have eA : intChars (rgb255 c).1 = natChars (rgb255 c).1.toNat := by
    unfold intChars
    rw [if_neg (by omega)]
  have eB : intChars (rgb255 c).2.1 = natChars (rgb255 c).2.1.toNat := by
    unfold intChars
    rw [if_neg (by omega)]
  have eC : intChars (rgb255 c).2.2 = natChars (rgb255 c).2.2.toNat := by
    unfold intChars
    rw [if_neg (by omega)]
  set dsA := natChars (rgb255 c).1.toNat with hdsA
  set dsB := natChars (rgb255 c).2.1.toNat with hdsB
  set dsC := natChars (rgb255 c).2.2.toNat with hdsC
  have htext : tripleText c =
      dsA ++ (',' :: ' ' :: (dsB ++ (',' :: ' ' :: dsC))) := by
    unfold tripleText
    rw [eA, eB, eC]
    simp
  rw [htext]
  have m1 : digitsM (dsA ++ (',' :: ' ' :: (dsB ++ (',' :: ' ' :: dsC)))) =
      some (dsA, dsA, ',' :: ' ' :: (dsB ++ (',' :: ' ' :: dsC))) :=
    digitsM_exact (natChars_ne_nil _) (fun x hx => natChars_digits hx)
      (by simp [List.takeWhile_cons])
  have m2 : litM [','] (',' :: ' ' :: (dsB ++ (',' :: ' ' :: dsC))) =
      some ((), [','], ' ' :: (dsB ++ (',' :: ' ' :: dsC))) :=
    litM_exact [','] _
  have m3 : optSpaceM (' ' :: (dsB ++ (',' :: ' ' :: dsC))) =
      some ((), [' '], dsB ++ (',' :: ' ' :: dsC)) := optSpaceM_space _
  have m4 : digitsM (dsB ++ (',' :: ' ' :: dsC)) =
      some (dsB, dsB, ',' :: ' ' :: dsC) :=
    digitsM_exact (natChars_ne_nil _) (fun x hx => natChars_digits hx)
      (by simp [List.takeWhile_cons])
  have m5 : litM [','] (',' :: ' ' :: dsC) =
      some ((), [','], ' ' :: dsC) := litM_exact [','] _
  have m6 : optSpaceM (' ' :: dsC) = some ((), [' '], dsC) :=
    optSpaceM_space _
  have m7 : digitsM dsC = some (dsC, dsC, []) := by
    have := @digitsM_exact dsC []
      (natChars_ne_nil _) (fun x hx => natChars_digits hx) (by simp)
    simpa using this
  unfold tripleM
  rw [withText_exact (andM_exact m1 (andM_exact m2 (andM_exact m3
    (andM_exact m4 (andM_exact m5 (andM_exact m6 m7))))))]
  simp

/-- C8 (counterexample): the claim says the output of every function-call
reduction itself matches the RGB-triple pattern, so chains resolve
completely.  `0, 0, 0.VAL(-1)` reduces to `-255, -255, -255`, whose
negative components match no pattern, so the chained `.HEX` is never
resolved. -/
theorem c8_counterexample_negative_triple :
    processTemplate themeBlack [] "0, 0, 0.VAL(-1).HEX".toList =
      .ok "-255, -255, -255.HEX".toList ∧
      tripleM "-255, -255, -255".toList = none := by decide

/-- C8 (amended): every successful function-call reduction substitutes the
match with the comma-space-joined RGB text of the result, with no enclosing
brackets; when the result's RGB components are non-negative this text fully
matches the RGB-triple pattern, which is what lets a chain such as
`KEY(0).TINT(0.2).HEX` resolve completely across passes. -/
theorem c8_reduction_text_chains :
    (∀ (op : Color → List ℚ → Except PyErr Color)
      (x : List Char × List Char) (con out : List Char),
        funcRepl op x con = .ok out →
          ∃ res : Color, out = tripleText res ∧ '[' ∉ out ∧ ']' ∉ out) ∧
    (∀ c : Color, 0 ≤ (rgb255 c).1 → 0 ≤ (rgb255 c).2.1 →
      0 ≤ (rgb255 c).2.2 →
      tripleM (tripleText c) = some (tripleText c, tripleText c, [])) ∧
    processTemplate themeRed [] "KEY(0).TINT(0.2).HEX".toList =
      .ok "#ff0000".toList := by
  refine ⟨?_, fun c h1 h2 h3 => tripleM_matches_tripleText h1 h2 h3,
    by decide⟩
  intro op x con out h
  obtain ⟨res, rfl⟩ := funcRepl_ok h
  refine ⟨res, rfl, ?_, ?_⟩
  · intro hmem
    have := tripleText_subset hmem
    simp at this
  · intro hmem
    have := tripleText_subset hmem
    simp at this

/-- C8 (witness): the general parts instantiated: the `TINT` reduction on
`"255, 0, 0"` with argument `0.2` succeeds with bracket-free triple text,
and that text fully matches the triple pattern. -/
theorem c8_reduction_text_chains_witness :
    (∃ res : Color,
      tripleText (fromRgb 255 0 0) = tripleText res ∧
        '[' ∉ tripleText (fromRgb 255 0 0) ∧
        ']' ∉ tripleText (fromRgb 255 0 0)) ∧
    tripleM (tripleText (fromRgb 255 0 0)) =
      some (tripleText (fromRgb 255 0 0), tripleText (fromRgb 255 0 0),
        []) :=
  ⟨c8_reduction_text_chains.1 tintOp ("255, 0, 0".toList, "0.2".toList)
      "255, 0, 0.TINT(0.2)".toList (tripleText (fromRgb 255 0 0))
      (by decide),
    c8_reduction_text_chains.2.1 (fromRgb 255 0 0) (by decide) (by decide)
      (by decide)⟩

/-! ### KEY and ROLE references: exact matches and non-matches -/

theorem pmap_exact {α β : Type} {f : α → β} {p : Pm α} {s : List Char}
    {a : α} {c r : List Char} (hp : p s = some (a, c, r)) :
    pmap f p s = some (f a, c, r) := by
  unfold pmap
  rw [hp]

/-- `KEY\((\d+)\)` fully matches the single-reference template. -/
theorem keyM_exact {ds : List Char} (h1 : ds ≠ [])
    (h2 : ∀ x ∈ ds, Char.isDigit x) :
    keyM ("KEY(".toList ++ ds ++ [')']) =
      some (ds, "KEY(".toList ++ ds ++ [')'], []) := by
  have e1 : "KEY(".toList ++ ds ++ [')'] =
      "KEY(".toList ++ (ds ++ [')']) := by simp
  have m1 : litM "KEY(".toList ("KEY(".toList ++ (ds ++ [')'])) =
      some ((), "KEY(".toList, ds ++ [')']) := litM_exact _ _
  have m2 : digitsM (ds ++ [')']) = some (ds, ds, [')']) :=
    digitsM_exact h1 h2 (by simp [List.takeWhile_cons])
  have m3 : litM [')'] [')'] = some ((), [')'], []) := by
    have := litM_exact [')'] ([] : List Char)
    simpa using this
  rw [e1]
  unfold keyM
  rw [pmap_exact (andM_exact (andM_exact m1 m2) m3)]
  simp

/-- `ROLE\((\w+)\)` fully matches the single-reference template. -/
theorem roleM_exact {w : List Char} (h1 : w ≠ [])
    (h2 : ∀ x ∈ w, isWordChar x) :
    roleM ("ROLE(".toList ++ w ++ [')']) =
      some (w, "ROLE(".toList ++ w ++ [')'], []) := by
  have e1 : "ROLE(".toList ++ w ++ [')'] =
      "ROLE(".toList ++ (w ++ [')']) := by simp
  have m1 : litM "ROLE(".toList ("ROLE(".toList ++ (w ++ [')'])) =
      some ((), "ROLE(".toList, w ++ [')']) := litM_exact _ _
  have m2 : wordsM (w ++ [')']) = some (w, w, [')']) := by
    unfold wordsM
    have ht : (w ++ [')']).takeWhile isWordChar = w := by
      rw [List.takeWhile_append_of_pos h2]
      simp [List.takeWhile_cons, isWordChar]
    rw [ht]
    dsimp only
    rw [if_neg (by simpa using h1), List.drop_left]
  have m3 : litM [')'] [')'] = some ((), [')'], []) := by
    have := litM_exact [')'] ([] : List Char)
    simpa using this
  rw [e1]
  unfold roleM
  rw [pmap_exact (andM_exact (andM_exact m1 m2) m3)]
  simp

theorem suffix_append_cases {s' X Y : List Char} (h : s' <:+ X ++ Y) :
    s' <:+ Y ∨ ∃ x', x' <:+ X ∧ x' ≠ [] ∧ s' = x' ++ Y := by
  obtain ⟨u, hu⟩ := h
  have hs' : s' = (X ++ Y).drop u.length := by
    rw [← hu, List.drop_left]
  have hlen : u.length + s'.length = X.length + Y.length := by
    have := congrArg List.length hu
    simpa using this
  by_cases hcase : X.length ≤ u.length
  · left
    obtain ⟨i, hi⟩ : ∃ i, u.length = X.length + i :=
      ⟨u.length - X.length, by omega⟩
    rw [hs', hi, List.drop_append]
    exact List.drop_suffix _ _
  · right
    refine ⟨X.drop u.length, List.drop_suffix _ _, ?_, ?_⟩
    · intro hnil
      have := congrArg List.length hnil
      simp at this
      omega
    · rw [hs', List.drop_append_of_le_length (by omega)]

theorem prefix_append_cases {pat u v : List Char} (h : pat <+: u ++ v) :
    pat <+: u ∨ ∃ p2, p2 ≠ [] ∧ pat = u ++ p2 ∧ p2 <+: v := by
  have hp : pat = (u ++ v).take pat.length := List.prefix_iff_eq_take.mp h
  have hlen : pat.length ≤ u.length + v.length := by
    have := h.length_le
    simpa using this
  by_cases hcase : pat.length ≤ u.length
  · left
    rw [List.take_append_of_le_length hcase] at hp
    rw [hp]
    exact List.take_prefix _ _
  · right
    rw [List.take_append_eq_append_take, List.take_of_length_le (by omega)]
      at hp
    refine ⟨v.take (pat.length - u.length), ?_, hp, List.take_prefix _ _⟩
    intro hnil
    rw [List.take_eq_nil_iff] at hnil
    rcases hnil with hnil | rfl
    · omega
    · simp at hlen
      omega

theorem andM_some {α β : Type} {p : Pm α} {q : Pm β} {s : List Char}
    {y : (α × β) × List Char × List Char} (h : andM p q s = some y) :
    ∃ a c1 r1, p s = some (a, c1, r1) := by
  unfold andM at h
  split at h
  · cases h
  · rename_i a c1 r1 hp
    exact ⟨a, c1, r1, hp⟩

theorem pmap_some {α β : Type} {f : α → β} {p : Pm α} {s : List Char}
    {y : β × List Char × List Char} (h : pmap f p s = some y) :
    ∃ z, p s = some z := by
  unfold pmap at h
  split at h
  · cases h
  · rename_i a c r hp
    exact ⟨_, hp⟩

theorem keyM_some_imp {s : List Char} {y : List Char × List Char × List Char}
    (h : keyM s = some y) : "KEY(".toList <+: s := by
  unfold keyM at h
  obtain ⟨z, hz⟩ := pmap_some h
  obtain ⟨a, c1, r1, h1⟩ := andM_some hz
  obtain ⟨a2, c2, r2, h2⟩ := andM_some h1
  have := (litM_eq h2).2
  rw [this]
  exact List.prefix_append _ _

theorem prefix_singleton {p2 : List Char} {x : Char} (h : p2 <+: [x]) :
    p2 = [] ∨ p2 = [x] := by
  cases p2 with
  | nil => exact Or.inl rfl
  | cons c cs =>
      rw [List.cons_prefix_cons] at h
      obtain ⟨rfl, hcs⟩ := h
      rw [List.prefix_nil] at hcs
      rw [hcs]
      exact Or.inr rfl

theorem suffix_singleton {s' : List Char} {x : Char} (h : s' <:+ [x]) :
    s' = [] ∨ s' = [x] := by
  obtain ⟨u, hu⟩ := h
  cases u with
  | nil => exact Or.inr hu
  | cons c cs =>
      left
      have hlen : (c :: cs).length + s'.length = 1 := by
        rw [← List.length_append, hu]
        rfl
      simp only [List.length_cons] at hlen
      have : s'.length = 0 := by omega
      exact List.length_eq_zero.mp this

/-- `KEY\((\d+)\)` matches nowhere in a single-role template: a role name
consists of word characters, which excludes the parenthesis the pattern
needs. -/
theorem keyM_none_on_role {w : List Char} (hw : ∀ x ∈ w, isWordChar x) :
    ∀ s', s' <:+ ("ROLE(".toList ++ (w ++ [')'])) → keyM s' = none := by
  intro s' hs'
  cases hk : keyM s' with
  | none => rfl
  | some y =>
      exfalso
      have hpre := keyM_some_imp hk
      rcases suffix_append_cases hs' with hcase | ⟨x', hx'1, hx'2, rfl⟩
      · rcases suffix_append_cases hcase with hcase2 | ⟨w', hw'1, hw'2, rfl⟩
        · rcases suffix_singleton hcase2 with rfl | rfl
          · rw [List.prefix_nil] at hpre
            exact absurd hpre (by decide)
          · rcases prefix_singleton hpre with h' | h' <;>
              exact absurd h' (by decide)
        · rcases prefix_append_cases hpre with h' | ⟨p2, hp2ne, hp2eq, hp2⟩
          · have hparen : '(' ∈ w' := h'.subset (by decide)
            have : isWordChar '(' := hw _ (hw'1.subset hparen)
            exact absurd this (by decide)
          · rcases prefix_singleton hp2 with h'' | h''
            · exact hp2ne h''
            · rw [h''] at hp2eq
              have : ')' ∈ "KEY(".toList := by
                rw [hp2eq]
                exact List.mem_append_right _ (by decide)
              exact absurd this (by decide)
      · cases x' with
        | nil => exact hx'2 rfl
        | cons c0 x'' =>
            rw [show "KEY(".toList = 'K' :: "EY(".toList from rfl] at hpre
            rw [List.cons_append, List.cons_prefix_cons] at hpre
            obtain ⟨hc0, -⟩ := hpre
            have : c0 ∈ "ROLE(".toList :=
              hx'1.subset (List.mem_cons_self _ _)
            rw [← hc0] at this
            exact absurd this (by decide)

theorem pySub_nomatch {α : Type} {m : Pm α}
    {repl : α → List Char → Except PyErr (List Char)} {s : List Char}
    (h : ∀ s', s' <:+ s → m s' = none) : pySub m repl s = .ok s :=
  subAux_nomatch _ _ h

theorem pySub_whole_ne {α : Type} {m : Pm α}
    {repl : α → List Char → Except PyErr (List Char)}
    {s : List Char} {a : α} {out : List Char} (hne : s ≠ [])
    (hm : m s = some (a, s, [])) (hr : repl a s = .ok out) :
    pySub m repl s = .ok out := by
  cases s with
  | nil => exact absurd rfl hne
  | cons c cs => exact pySub_whole hm hr

theorem passAux_skip {r : List Char → Except PyErr (List Char)}
    {rs : List (List Char → Except PyErr (List Char))} {t : List Char}
    {ch : Bool} (h : r t = .ok t) :
    passAux (r :: rs) t ch = passAux rs t ch := by
  conv_lhs => rw [passAux]
  rw [h]
  dsimp only
  rw [if_pos rfl]

theorem passAux_change {r : List Char → Except PyErr (List Char)}
    {rs : List (List Char → Except PyErr (List Char))} {t t2 : List Char}
    {ch : Bool} (h : r t = .ok t2) (hne : t2 ≠ t) :
    passAux (r :: rs) t ch = passAux rs t2 true := by
  conv_lhs => rw [passAux]
  rw [h]
  dsimp only
  rw [if_neg hne]

theorem passAux_skip_all {rs rs' : List (List Char → Except PyErr (List Char))}
    {t : List Char} {ch : Bool} (h : ∀ r ∈ rs, r t = .ok t) :
    passAux (rs ++ rs') t ch = passAux rs' t ch := by
  induction rs with
  | nil => rfl
  | cons r rs ih =>
      rw [List.cons_append, passAux_skip (h r (List.mem_cons_self _ _)),
        ih (fun r' hr' => h r' (List.mem_cons_of_mem _ hr'))]

theorem passAux_all_id {rs : List (List Char → Except PyErr (List Char))}
    {t : List Char} {ch : Bool} (h : ∀ r ∈ rs, r t = .ok t) :
    passAux rs t ch = .ok (t, ch) := by
  induction rs with
  | nil => rfl
  | cons r rs ih =>
      rw [passAux_skip (h r (List.mem_cons_self _ _))]
      exact ih (fun r' hr' => h r' (List.mem_cons_of_mem _ hr'))

/-- The eleven function substitutions and the `HEX` substitution leave a
dot-free text unchanged. -/
theorem funcs_hex_id (_th : Theme) {t : List Char} (hdot : '.' ∉ t) :
    ∀ r ∈ funcTable.map
        (fun p => pySub (funcM p.1) (funcRepl p.2)) ++ [pySub hexM hexRepl],
      r t = .ok t := by
  intro r hr
  unfold funcTable at hr
  simp only [List.map_cons, List.map_nil, List.cons_append, List.nil_append,
    List.mem_cons, List.not_mem_nil, or_false] at hr
  rcases hr with rfl | rfl | rfl | rfl | rfl | rfl | rfl | rfl | rfl | rfl |
    rfl | rfl
  · exact pySub_id_of_not_mem consumedHas_func_dot splits_func hdot
  · exact pySub_id_of_not_mem consumedHas_func_dot splits_func hdot
  · exact pySub_id_of_not_mem consumedHas_func_dot splits_func hdot
  · exact pySub_id_of_not_mem consumedHas_func_dot splits_func hdot
  · exact pySub_id_of_not_mem consumedHas_func_dot splits_func hdot
  · exact pySub_id_of_not_mem consumedHas_func_dot splits_func hdot
  · exact pySub_id_of_not_mem consumedHas_func_dot splits_func hdot
  · exact pySub_id_of_not_mem consumedHas_func_dot splits_func hdot
  · exact pySub_id_of_not_mem consumedHas_func_dot splits_func hdot
  · exact pySub_id_of_not_mem consumedHas_func_dot splits_func hdot
  · exact pySub_id_of_not_mem consumedHas_func_dot splits_func hdot
  · exact pySub_id_of_not_mem consumedHas_hexm_dot splits_hexm hdot

/-- A text without dot, `R` and `K` is a fixed point of a full pass. -/
theorem passFlag_id_of_chars (th : Theme) {t : List Char} (hdot : '.' ∉ t)
    (hR : 'R' ∉ t) (hK : 'K' ∉ t) : passFlag th t = .ok (t, false) := by
  unfold passFlag
  apply passAux_all_id
  intro r hr
  unfold rewriters funcTable at hr
  simp only [List.map_cons, List.map_nil, List.cons_append, List.nil_append,
    List.mem_cons, List.not_mem_nil, or_false] at hr
  rcases hr with rfl | rfl | rfl | rfl | rfl | rfl | rfl | rfl | rfl | rfl |
    rfl | rfl | rfl | rfl
  · exact pySub_id_of_not_mem consumedHas_func_dot splits_func hdot
  · exact pySub_id_of_not_mem consumedHas_func_dot splits_func hdot
  · exact pySub_id_of_not_mem consumedHas_func_dot splits_func hdot
  · exact pySub_id_of_not_mem consumedHas_func_dot splits_func hdot
  · exact pySub_id_of_not_mem consumedHas_func_dot splits_func hdot
  · exact pySub_id_of_not_mem consumedHas_func_dot splits_func hdot
  · exact pySub_id_of_not_mem consumedHas_func_dot splits_func hdot
  · exact pySub_id_of_not_mem consumedHas_func_dot splits_func hdot
  · exact pySub_id_of_not_mem consumedHas_func_dot splits_func hdot
  · exact pySub_id_of_not_mem consumedHas_func_dot splits_func hdot
  · exact pySub_id_of_not_mem consumedHas_func_dot splits_func hdot
  · exact pySub_id_of_not_mem consumedHas_hexm_dot splits_hexm hdot
  · exact pySub_id_of_not_mem consumedHas_rolem_r splits_rolem hR
  · exact pySub_id_of_not_mem consumedHas_keym_k splits_keym hK

theorem not_mem_tripleText {x : Char} (hx : x ∉ "-0123456789, ".toList)
    (c : Color) : x ∉ tripleText c := fun h => hx (tripleText_subset h)

/-- C7: for every palette and every `KEY(n)` or `ROLE(name)` reference
(digits `n`, word-character `name`), a lookup miss leaves the matched text
unchanged in the output and no error is raised (the render returns
normally), while a hit is substituted by the RGB-triple text of the
resolved color. -/
theorem c7_unresolved_references_are_soft (th : Theme) (ds w : List Char)
    (hds1 : ds ≠ []) (hds2 : ∀ x ∈ ds, Char.isDigit x)
    (hw1 : w ≠ []) (hw2 : ∀ x ∈ w, isWordChar x) :
    (th.keys.get? (natVal ds) = none →
      processTemplate th [] ("KEY(".toList ++ ds ++ [')']) =
        .ok ("KEY(".toList ++ ds ++ [')'])) ∧
    (∀ c : Color, th.keys.get? (natVal ds) = some c →
      processTemplate th [] ("KEY(".toList ++ ds ++ [')']) =
        .ok (tripleText c)) ∧
    (List.lookup w th.roles = none →
      processTemplate th [] ("ROLE(".toList ++ w ++ [')']) =
        .ok ("ROLE(".toList ++ w ++ [')'])) ∧
    (∀ c : Color, List.lookup w th.roles = some c →
      processTemplate th [] ("ROLE(".toList ++ w ++ [')']) =
        .ok (tripleText c)) := by
  -- facts about the KEY template
  have hdotK : '.' ∉ "KEY(".toList ++ ds ++ [')'] := by
    intro h
    rcases List.mem_append.mp h with h' | h'
    · rcases List.mem_append.mp h' with h'' | h''
      · exact absurd h'' (by decide)
      · exact absurd (hds2 _ h'') (by decide)
    · exact absurd h' (by decide)
  have hRK : 'R' ∉ "KEY(".toList ++ ds ++ [')'] := by
    intro h
    rcases List.mem_append.mp h with h' | h'
    · rcases List.mem_append.mp h' with h'' | h''
      · exact absurd h'' (by decide)
      · exact absurd (hds2 _ h'') (by decide)
    · exact absurd h' (by decide)
  have hparenK : '(' ∈ "KEY(".toList ++ ds ++ [')'] :=
    List.mem_append_left _ (List.mem_append_left _ (by decide))
  have hmuK : 0 < mu ("KEY(".toList ++ ds ++ [')']) := mu_pos_of_paren hparenK
  have hneK : ("KEY(".toList ++ ds ++ [')'] : List Char) ≠ [] := by simp
  have hkeyM := keyM_exact hds1 hds2
  -- facts about the ROLE template
  have hdotR : '.' ∉ "ROLE(".toList ++ w ++ [')'] := by
    intro h
    rcases List.mem_append.mp h with h' | h'
    · rcases List.mem_append.mp h' with h'' | h''
      · exact absurd h'' (by decide)
      · exact absurd (hw2 _ h'') (by decide)
    · exact absurd h' (by decide)
  have hparenR : '(' ∈ "ROLE(".toList ++ w ++ [')'] :=
    List.mem_append_left _ (List.mem_append_left _ (by decide))
  have hmuR : 0 < mu ("ROLE(".toList ++ w ++ [')']) := mu_pos_of_paren hparenR
  have hneR : ("ROLE(".toList ++ w ++ [')'] : List Char) ≠ [] := by simp
  have hroleM := roleM_exact hw1 hw2
  have hkeyNone : ∀ s', s' <:+ "ROLE(".toList ++ w ++ [')'] →
      keyM s' = none := by
    intro s' hs'
    apply keyM_none_on_role hw2
    rw [← List.append_assoc]
    exact hs'
  -- facts about a substituted triple text
  have hdotT : ∀ c : Color, '.' ∉ tripleText c :=
    fun c => not_mem_tripleText (by decide) c
  have hRT : ∀ c : Color, 'R' ∉ tripleText c :=
    fun c => not_mem_tripleText (by decide) c
  have hKT : ∀ c : Color, 'K' ∉ tripleText c :=
    fun c => not_mem_tripleText (by decide) c
  have htripleNeK : ∀ c : Color,
      tripleText c ≠ "KEY(".toList ++ ds ++ [')'] := by
    intro c heq
    have h0 := tripleText_mu c
    rw [heq] at h0
    omega
  have htripleNeR : ∀ c : Color,
      tripleText c ≠ "ROLE(".toList ++ w ++ [')'] := by
    intro c heq
    have h0 := tripleText_mu c
    rw [heq] at h0
    omega
  -- one full pass on the KEY template, split by whether the key handler
  -- changed the text
  have hpassK0 : passFlag th ("KEY(".toList ++ ds ++ [')']) =
      passAux [pySub keyM (keyRepl th)] ("KEY(".toList ++ ds ++ [')'])
        false := by
    unfold passFlag rewriters
    rw [passAux_skip_all (fun r hr =>
      funcs_hex_id th hdotK r (List.mem_append_left _ hr))]
    rw [passAux_skip (pySub_id_of_not_mem consumedHas_hexm_dot splits_hexm
      hdotK)]
    rw [passAux_skip (pySub_id_of_not_mem consumedHas_rolem_r splits_rolem
      hRK)]
  have hpassK_same :
      pySub keyM (keyRepl th) ("KEY(".toList ++ ds ++ [')']) =
        .ok ("KEY(".toList ++ ds ++ [')']) →
      passFlag th ("KEY(".toList ++ ds ++ [')']) =
        .ok ("KEY(".toList ++ ds ++ [')'], false) := by
    intro hsub
    rw [hpassK0, passAux_skip hsub]
    rfl
  have hpassK_diff : ∀ out : List Char,
      pySub keyM (keyRepl th) ("KEY(".toList ++ ds ++ [')']) = .ok out →
      out ≠ "KEY(".toList ++ ds ++ [')'] →
      passFlag th ("KEY(".toList ++ ds ++ [')']) = .ok (out, true) := by
    intro out hsub hout
    rw [hpassK0, passAux_change hsub hout]
    rfl
  -- one full pass on the ROLE template, split by whether the role handler
  -- changed the text
  have hpassR0 : passFlag th ("ROLE(".toList ++ w ++ [')']) =
      passAux [pySub roleM (roleRepl th), pySub keyM (keyRepl th)]
        ("ROLE(".toList ++ w ++ [')']) false := by
    unfold passFlag rewriters
    rw [passAux_skip_all (fun r hr =>
      funcs_hex_id th hdotR r (List.mem_append_left _ hr))]
    rw [passAux_skip (pySub_id_of_not_mem consumedHas_hexm_dot splits_hexm
      hdotR)]
  have hpassR_same :
      pySub roleM (roleRepl th) ("ROLE(".toList ++ w ++ [')']) =
        .ok ("ROLE(".toList ++ w ++ [')']) →
      passFlag th ("ROLE(".toList ++ w ++ [')']) =
        .ok ("ROLE(".toList ++ w ++ [')'], false) := by
    intro hsub
    rw [hpassR0, passAux_skip hsub,
      passAux_skip (pySub_nomatch hkeyNone)]
    rfl
  have hpassR_diff : ∀ out : List Char,
      pySub roleM (roleRepl th) ("ROLE(".toList ++ w ++ [')']) = .ok out →
      out ≠ "ROLE(".toList ++ w ++ [')'] →
      (pySub keyM (keyRepl th) out = .ok out) →
      passFlag th ("ROLE(".toList ++ w ++ [')']) = .ok (out, true) := by
    intro out hsub hout hkey
    rw [hpassR0, passAux_change hsub hout, passAux_skip hkey]
    rfl
  refine ⟨?_, ?_, ?_, ?_⟩
  · -- KEY miss
    intro hmiss
    have hrep : keyRepl th ds ("KEY(".toList ++ ds ++ [')']) =
        .ok ("KEY(".toList ++ ds ++ [')']) := by
      unfold keyRepl
      rw [hmiss]
    have hpass := hpassK_same (pySub_whole_ne hneK hkeyM hrep)
    show loopFuel th (mu ("KEY(".toList ++ ds ++ [')']) + 1)
        ("KEY(".toList ++ ds ++ [')']) = _
    simp only [loopFuel]
    rw [hpass]
  · -- KEY hit
    intro c hhit
    have hrep : keyRepl th ds ("KEY(".toList ++ ds ++ [')']) =
        .ok (tripleText c) := by
      unfold keyRepl
      rw [hhit]
    have hpass := hpassK_diff _ (pySub_whole_ne hneK hkeyM hrep)
      (htripleNeK c)
    show loopFuel th (mu ("KEY(".toList ++ ds ++ [')']) + 1)
        ("KEY(".toList ++ ds ++ [')']) = _
    obtain ⟨k, hk⟩ : ∃ k, mu ("KEY(".toList ++ ds ++ [')']) = k + 1 :=
      ⟨mu ("KEY(".toList ++ ds ++ [')']) - 1, by omega⟩
    simp only [loopFuel]
    rw [hpass]
    dsimp only
    rw [hk]
    simp only [loopFuel]
    rw [passFlag_id_of_chars th (hdotT c) (hRT c) (hKT c)]
  · -- ROLE miss
    intro hmiss
    have hrep : roleRepl th w ("ROLE(".toList ++ w ++ [')']) =
        .ok ("ROLE(".toList ++ w ++ [')']) := by
      unfold roleRepl
      rw [hmiss]
    have hpass := hpassR_same (pySub_whole_ne hneR hroleM hrep)
    show loopFuel th (mu ("ROLE(".toList ++ w ++ [')']) + 1)
        ("ROLE(".toList ++ w ++ [')']) = _
    simp only [loopFuel]
    rw [hpass]
  · -- ROLE hit
    intro c hhit
    have hrep : roleRepl th w ("ROLE(".toList ++ w ++ [')']) =
        .ok (tripleText c) := by
      unfold roleRepl
      rw [hhit]
    have hpass := hpassR_diff _ (pySub_whole_ne hneR hroleM hrep)
      (htripleNeR c)
      (pySub_id_of_not_mem consumedHas_keym_k splits_keym (hKT c))
    show loopFuel th (mu ("ROLE(".toList ++ w ++ [')']) + 1)
        ("ROLE(".toList ++ w ++ [')']) = _
    obtain ⟨k, hk⟩ : ∃ k, mu ("ROLE(".toList ++ w ++ [')']) = k + 1 :=
      ⟨mu ("ROLE(".toList ++ w ++ [')']) - 1, by omega⟩
    simp only [loopFuel]
    rw [hpass]
    dsimp only
    rw [hk]
    simp only [loopFuel]
    rw [passFlag_id_of_chars th (hdotT c) (hRT c) (hKT c)]

/-- C7 (witness): with `Colors=["#ff0000"]` and no roles, `KEY(0)` (a hit)
rewrites to the triple text `255, 0, 0` and `ROLE(accent)` (a miss) is left
unchanged. -/
theorem c7_unresolved_references_are_soft_witness :
    processTemplate themeRed [] ("KEY(".toList ++ "0".toList ++ [')']) =
      .ok (tripleText (colorFromHex "#ff0000".toList)) ∧
    processTemplate themeRed [] ("ROLE(".toList ++ "accent".toList ++ [')'])
      = .ok ("ROLE(".toList ++ "accent".toList ++ [')']) :=
  ⟨(c7_unresolved_references_are_soft themeRed "0".toList "accent".toList
      (by decide) (by decide) (by decide) (by decide)).2.1
      (colorFromHex "#ff0000".toList) (by decide),
    (c7_unresolved_references_are_soft themeRed "0".toList "accent".toList
      (by decide) (by decide) (by decide) (by decide)).2.2.1 (by decide)⟩

/-! ### The color algebra: HSV conversions round-trip on the hue -/

theorem qmax_eq_left {a b : ℚ} (h : b ≤ a) : qmax a b = a := by
  unfold qmax
  split
  · exact le_antisymm h (by assumption)
  · rfl

theorem qmax_eq_right {a b : ℚ} (h : a ≤ b) : qmax a b = b := by
  unfold qmax
  split
  · rfl
  · exact absurd h (by assumption)

theorem qmin_eq_left {a b : ℚ} (h : a ≤ b) : qmin a b = a := by
  unfold qmin
  split
  · rfl
  · exact absurd h (by assumption)

theorem qmin_eq_right {a b : ℚ} (h : b ≤ a) : qmin a b = b := by
  unfold qmin
  split
  · exact le_antisymm (by assumption) h
  · rfl

theorem pmod1_eq_fract (x : ℚ) : pmod1 x = Int.fract x := rfl

theorem pmod1_nonneg (x : ℚ) : 0 ≤ pmod1 x := by
  rw [pmod1_eq_fract]
  exact Int.fract_nonneg x

theorem pmod1_lt_one (x : ℚ) : pmod1 x < 1 := by
  rw [pmod1_eq_fract]
  exact Int.fract_lt_one x

theorem pmod1_eq_self {x : ℚ} (h0 : 0 ≤ x) (h1 : x < 1) : pmod1 x = x := by
  rw [pmod1_eq_fract]
  exact Int.fract_eq_self.mpr ⟨h0, h1⟩

/-- `hsvOf` on a gray triple. -/
theorem hsvOf_gray (x : ℚ) : hsvOf ⟨x, x, x⟩ = (0, 0, x) := by
  unfold hsvOf
  rw [qmax_eq_left le_rfl, qmax_eq_left le_rfl, qmin_eq_left le_rfl,
    qmin_eq_left le_rfl]
  rw [if_pos (sub_self x)]

/-- `hsvOf` when the red channel is the strict maximum and blue the
minimum. -/
theorem hsvOf_r_max_b_min {r g b : ℚ} (hg : g < r) (hb : b < r)
    (hbg : b ≤ g) :
    hsvOf ⟨r, g, b⟩ = ((g - b) / (6 * (r - b)), (r - b) / r, r) := by
  unfold hsvOf
  rw [qmax_eq_left hbg, qmax_eq_left (le_of_lt hg),
    qmin_eq_right hbg, qmin_eq_right (le_of_lt hb)]
  rw [if_neg (by intro he; nlinarith : ¬(r - b = 0))]
  dsimp only
  rw [if_neg (ne_of_lt hg), if_neg (ne_of_lt hb)]
  have hw1 : ¬((g - b) / (6 * (r - b)) < 0) := by
    push_neg
    apply div_nonneg <;> nlinarith
  rw [if_neg hw1]
  have hw2 : ¬((g - b) / (6 * (r - b)) > 1) := by
    push_neg
    rw [div_le_one (by nlinarith)]
    nlinarith
  rw [if_neg hw2]

/-- `hsvOf` when the red channel is the strict maximum and green the strict
minimum (hue wraps by one turn). -/
theorem hsvOf_r_max_g_min {r g b : ℚ} (hg : g < r) (hb : b < r)
    (hgb : g < b) :
    hsvOf ⟨r, g, b⟩ = ((g - b) / (6 * (r - g)) + 1, (r - g) / r, r) := by
  unfold hsvOf
  rw [qmax_eq_right (le_of_lt hgb), qmax_eq_left (le_of_lt hb),
    qmin_eq_left (le_of_lt hgb), qmin_eq_right (le_of_lt hg)]
  rw [if_neg (by intro he; nlinarith : ¬(r - g = 0))]
  dsimp only
  rw [if_neg (ne_of_lt hg), if_neg (ne_of_lt hb)]
  have hw1 : (g - b) / (6 * (r - g)) < 0 :=
    div_neg_of_neg_of_pos (by nlinarith) (by nlinarith)
  rw [if_pos hw1]
  have hw2 : ¬((g - b) / (6 * (r - g)) + 1 > 1) := by
    push_neg
    nlinarith [hw1]
  rw [if_neg hw2]

/-- `hsvOf` when the green channel is the maximum (blue strictly below) and
blue the minimum. -/
theorem hsvOf_g_max_b_min {r g b : ℚ} (hr : r ≤ g) (hb : b < g)
    (hbr : b ≤ r) :
    hsvOf ⟨r, g, b⟩ =
      (1 / 3 + (b - r) / (6 * (g - b)), (g - b) / g, g) := by
  unfold hsvOf
  rw [qmax_eq_left (le_of_lt hb), qmax_eq_right hr,
    qmin_eq_right (le_of_lt hb), qmin_eq_right hbr]
  rw [if_neg (by intro he; nlinarith : ¬(g - b = 0))]
  dsimp only
  rw [if_pos rfl, if_neg (ne_of_lt hb)]
  have h1 : -(1 / 6) ≤ (b - r) / (6 * (g - b)) := by
    rw [neg_le, ← neg_div, div_le_iff₀ (by nlinarith)]
    nlinarith
  have h2 : (b - r) / (6 * (g - b)) ≤ 0 :=
    div_nonpos_of_nonpos_of_nonneg (by nlinarith) (by nlinarith)
  have hw1 : ¬(1 / 3 + (b - r) / (6 * (g - b)) < 0) := by
    push_neg
    linarith
  rw [if_neg hw1]
  have hw2 : ¬(1 / 3 + (b - r) / (6 * (g - b)) > 1) := by
    push_neg
    linarith
  rw [if_neg hw2]

/-- `hsvOf` when the green channel is the maximum (blue strictly below) and
red the minimum. -/
theorem hsvOf_g_max_r_min {r g b : ℚ} (hr : r ≤ g) (hb : b < g)
    (hrb : r ≤ b) :
    hsvOf ⟨r, g, b⟩ =
      (1 / 3 + (b - r) / (6 * (g - r)), (g - r) / g, g) := by
  unfold hsvOf
  rw [qmax_eq_left (le_of_lt hb), qmax_eq_right hr,
    qmin_eq_right (le_of_lt hb), qmin_eq_left hrb]
  rw [if_neg (by intro he; nlinarith : ¬(g - r = 0))]
  dsimp only
  rw [if_pos rfl, if_neg (ne_of_lt hb)]
  have h1 : 0 ≤ (b - r) / (6 * (g - r)) := by
    apply div_nonneg <;> nlinarith
  have h2 : (b - r) / (6 * (g - r)) ≤ 1 / 6 := by
    rw [div_le_div_iff₀ (by nlinarith) (by norm_num)]
    nlinarith
  have hw1 : ¬(1 / 3 + (b - r) / (6 * (g - r)) < 0) := by
    push_neg
    linarith
  rw [if_neg hw1]
  have hw2 : ¬(1 / 3 + (b - r) / (6 * (g - r)) > 1) := by
    push_neg
    linarith
  rw [if_neg hw2]

/-- `hsvOf` when the blue channel is the maximum (strictly above the
minimum) and green the minimum. -/
theorem hsvOf_b_max_g_min {r g b : ℚ} (hr : r ≤ b) (hg : g ≤ b)
    (hgr : g ≤ r) (hne : g < b) :
    hsvOf ⟨r, g, b⟩ =
      (2 / 3 + (r - g) / (6 * (b - g)), (b - g) / b, b) := by
  unfold hsvOf
  rw [qmax_eq_right hg, qmax_eq_right hr, qmin_eq_left hg,
    qmin_eq_right hgr]
  rw [if_neg (by intro he; nlinarith : ¬(b - g = 0))]
  dsimp only
  rw [if_pos rfl]
  have h1 : 0 ≤ (r - g) / (6 * (b - g)) := by
    apply div_nonneg <;> nlinarith
  have h2 : (r - g) / (6 * (b - g)) ≤ 1 / 6 := by
    rw [div_le_div_iff₀ (by nlinarith) (by norm_num)]
    nlinarith
  have hw1 : ¬(2 / 3 + (r - g) / (6 * (b - g)) < 0) := by
    push_neg
    linarith
  rw [if_neg hw1]
  have hw2 : ¬(2 / 3 + (r - g) / (6 * (b - g)) > 1) := by
    push_neg
    linarith
  rw [if_neg hw2]

/-- `hsvOf` when the blue channel is the maximum (strictly above the
minimum) and red the minimum. -/
theorem hsvOf_b_max_r_min {r g b : ℚ} (hr : r ≤ b) (hg : g ≤ b)
    (hrg : r ≤ g) (hne : r < b) :
    hsvOf ⟨r, g, b⟩ =
      (2 / 3 + (r - g) / (6 * (b - r)), (b - r) / b, b) := by
  unfold hsvOf
  rw [qmax_eq_right hg, qmax_eq_right hr, qmin_eq_left hg,
    qmin_eq_left hrg]
  rw [if_neg (by intro he; nlinarith : ¬(b - r = 0))]
  dsimp only
  rw [if_pos rfl]
  have h1 : -(1 / 6) ≤ (r - g) / (6 * (b - r)) := by
    rw [neg_le, ← neg_div, div_le_iff₀ (by nlinarith)]
    nlinarith
  have h2 : (r - g) / (6 * (b - r)) ≤ 0 :=
    div_nonpos_of_nonpos_of_nonneg (by nlinarith) (by nlinarith)
  have hw1 : ¬(2 / 3 + (r - g) / (6 * (b - r)) < 0) := by
    push_neg
    linarith
  rw [if_neg hw1]
  have hw2 : ¬(2 / 3 + (r - g) / (6 * (b - r)) > 1) := by
    push_neg
    linarith
  rw [if_neg hw2]

/-- HSV to RGB and back: the conversions of the `colour` library are exact
inverses on hue values in `[0, 1)` and positive saturation and value (with
saturation at most 1). -/
theorem hsv_roundtrip {h s v : ℚ} (hh0 : 0 ≤ h) (hh1 : h < 1)
    (hs0 : 0 < s) (hs1 : s ≤ 1) (hv : 0 < v) :
    hsvOf (colorOfHSV h s v) = (h, s, v) := by
  have h6ne : ¬(h * 6 = 6) := by intro he; nlinarith
  have hfl : ⌊h * 6⌋ = 0 ∨ ⌊h * 6⌋ = 1 ∨ ⌊h * 6⌋ = 2 ∨ ⌊h * 6⌋ = 3 ∨
      ⌊h * 6⌋ = 4 ∨ ⌊h * 6⌋ = 5 := by
    have hb1 : (0:ℤ) ≤ ⌊h * 6⌋ := Int.floor_nonneg.mpr (by nlinarith)
    have hb2 : ⌊h * 6⌋ < 6 := by
      rw [Int.floor_lt]
      push_cast
      nlinarith
    omega
  have hvs : (0:ℚ) < v * s := mul_pos hv hs0
  have hv0 : v ≠ 0 := ne_of_gt hv
  have hs0' : s ≠ 0 := ne_of_gt hs0
  have hvs0 : v * s ≠ 0 := ne_of_gt hvs
  unfold colorOfHSV
  dsimp only
  rw [if_neg h6ne]
  rcases hfl with hfloor | hfloor | hfloor | hfloor | hfloor | hfloor <;>
    rw [hfloor] <;>
    obtain ⟨hf0, hf1⟩ := Int.floor_eq_iff.mp hfloor <;>
    push_cast at hf0 hf1 ⊢
  · -- sector 0, f = 6h
    rw [hsvOf_r_max_b_min
      (by nlinarith [mul_pos hvs (show (0:ℚ) < 1 - (h * 6 - 0) by linarith)])
      (by nlinarith) (by nlinarith [mul_nonneg hvs.le hf0])]
    simp only [Prod.mk.injEq]
    refine ⟨?_, ?_, trivial⟩
    · rw [show v - v * (1 - s) = v * s from by ring]
      field_simp
      ring
    · rw [show v - v * (1 - s) = v * s from by ring]
      field_simp
  · -- sector 1, f = 6h - 1
    rw [hsvOf_g_max_b_min
      (by nlinarith [mul_nonneg hvs.le (show (0:ℚ) ≤ h * 6 - 1 by linarith)])
      (by nlinarith)
      (by nlinarith [mul_nonneg hvs.le (show (0:ℚ) ≤ 1 - (h * 6 - 1) by linarith)])]
    simp only [Prod.mk.injEq]
    refine ⟨?_, ?_, trivial⟩
    · rw [show v - v * (1 - s) = v * s from by ring]
      field_simp
      ring
    · rw [show v - v * (1 - s) = v * s from by ring]
      field_simp
  · -- sector 2, f = 6h - 2
    rw [hsvOf_g_max_r_min (by nlinarith)
      (by nlinarith [mul_pos hvs (show (0:ℚ) < 1 - (h * 6 - 2) by linarith)])
      (by nlinarith [mul_nonneg hvs.le (show (0:ℚ) ≤ h * 6 - 2 by linarith)])]
    simp only [Prod.mk.injEq]
    refine ⟨?_, ?_, trivial⟩
    · rw [show v - v * (1 - s) = v * s from by ring]
      field_simp
      ring
    · rw [show v - v * (1 - s) = v * s from by ring]
      field_simp
  · -- sector 3, f = 6h - 3
    rw [hsvOf_b_max_r_min (by nlinarith) (by nlinarith)
      (by nlinarith [mul_nonneg hvs.le (show (0:ℚ) ≤ 1 - (h * 6 - 3) by linarith)])
      (by nlinarith)]
    simp only [Prod.mk.injEq]
    refine ⟨?_, ?_, trivial⟩
    · rw [show v - v * (1 - s) = v * s from by ring]
      field_simp
      ring
    · rw [show v - v * (1 - s) = v * s from by ring]
      field_simp
  · -- sector 4, f = 6h - 4
    rw [hsvOf_b_max_g_min (by nlinarith) (by nlinarith)
      (by nlinarith [mul_nonneg hvs.le (show (0:ℚ) ≤ h * 6 - 4 by linarith)])
      (by nlinarith)]
    simp only [Prod.mk.injEq]
    refine ⟨?_, ?_, trivial⟩
    · rw [show v - v * (1 - s) = v * s from by ring]
      field_simp
      ring
    · rw [show v - v * (1 - s) = v * s from by ring]
      field_simp
  · -- sector 5, f = 6h - 5
    by_cases hh5 : h * 6 = 5
    · -- f = 0: the blue channel ties with red and the blue branch fires
      rw [hh5]
      simp only [sub_self, mul_zero, sub_zero, mul_one]
      rw [hsvOf_b_max_g_min le_rfl (by nlinarith) (by nlinarith)
        (by nlinarith)]
      simp only [Prod.mk.injEq]
      refine ⟨?_, ?_, trivial⟩
      · rw [show v - v * (1 - s) = v * s from by ring]
        rw [show v * s / (6 * (v * s)) = 1 / 6 from by field_simp; ring]
        linarith
      · rw [show v - v * (1 - s) = v * s from by ring]
        field_simp
    · -- f > 0: red is the strict maximum and green the strict minimum
      have hf0' : 0 < h * 6 - 5 := lt_of_le_of_ne (by linarith)
        (fun he => hh5 (by linarith))
      rw [hsvOf_r_max_g_min (by nlinarith)
        (by nlinarith [mul_pos hvs hf0'])
        (by nlinarith [mul_pos hvs (show (0:ℚ) < 1 - (h * 6 - 5) by linarith)])]
      simp only [Prod.mk.injEq]
      refine ⟨?_, ?_, trivial⟩
      · rw [show v - v * (1 - s) = v * s from by ring]
        field_simp
        ring
      · rw [show v - v * (1 - s) = v * s from by ring]
        field_simp

/-- The left argument is at most `qmax`. -/
theorem le_qmax_left (a b : ℚ) : a ≤ qmax a b := by
  unfold qmax
  split_ifs with h
  · exact h
  · exact le_rfl

/-- The right argument is at most `qmax`. -/
theorem le_qmax_right (a b : ℚ) : b ≤ qmax a b := by
  unfold qmax
  split_ifs with h
  · exact le_rfl
  · exact le_of_not_le h

/-- `qmin` is at most its left argument. -/
theorem qmin_le_left (a b : ℚ) : qmin a b ≤ a := by
  unfold qmin
  split_ifs with h
  · exact le_rfl
  · exact le_of_not_le h

/-- `qmin` is at most its right argument. -/
theorem qmin_le_right (a b : ℚ) : qmin a b ≤ b := by
  unfold qmin
  split_ifs with h
  · exact h
  · exact le_rfl

/-- A lower bound of both arguments bounds `qmin`. -/
theorem le_qmin {a b x : ℚ} (ha : x ≤ a) (hb : x ≤ b) : x ≤ qmin a b := by
  unfold qmin
  split_ifs <;> assumption

/-- The hue offsets of `hsvOf` lie in `[-1/6, 1/6]`: the numerator is a
difference of two channels, each between the minimum `M` and the maximum
`V`, and the denominator is six times the positive spread `V - M`. -/
theorem offset_bound {x y M V : ℚ} (hx1 : M ≤ x) (hx2 : x ≤ V)
    (hy1 : M ≤ y) (hy2 : y ≤ V) (hd : 0 < V - M) :
    -(1/6) ≤ (x - y) / (6 * (V - M)) ∧ (x - y) / (6 * (V - M)) ≤ 1/6 := by
  constructor
  · rw [le_div_iff₀ (by linarith)]
    nlinarith
  · rw [div_le_iff₀ (by linarith)]
    nlinarith

/-- Shape of `hsvOf` on colors with non-negative channels: the hue lies in
`[0, 1)`, the saturation is at most 1, and either the color is achromatic
(hue and saturation both 0) or saturation and value are both positive. -/
theorem hsvOf_props (c : Color) (hr : 0 ≤ c.r) (hg : 0 ≤ c.g)
    (hb : 0 ≤ c.b) :
    (0 ≤ (hsvOf c).1 ∧ (hsvOf c).1 < 1 ∧ (hsvOf c).2.1 ≤ 1) ∧
      ((hsvOf c).1 = 0 ∧ (hsvOf c).2.1 = 0 ∨
        0 < (hsvOf c).2.1 ∧ 0 < (hsvOf c).2.2) := by
  have h1V : c.r ≤ qmax c.r (qmax c.g c.b) := le_qmax_left _ _
  have h2V : c.g ≤ qmax c.r (qmax c.g c.b) :=
    le_trans (le_qmax_left _ _) (le_qmax_right _ _)
  have h3V : c.b ≤ qmax c.r (qmax c.g c.b) :=
    le_trans (le_qmax_right _ _) (le_qmax_right _ _)
  have h1M : qmin c.r (qmin c.g c.b) ≤ c.r := qmin_le_left _ _
  have h2M : qmin c.r (qmin c.g c.b) ≤ c.g :=
    le_trans (qmin_le_right _ _) (qmin_le_left _ _)
  have h3M : qmin c.r (qmin c.g c.b) ≤ c.b :=
    le_trans (qmin_le_right _ _) (qmin_le_right _ _)
  have hM0 : 0 ≤ qmin c.r (qmin c.g c.b) := le_qmin hr (le_qmin hg hb)
  unfold hsvOf
  dsimp only
  set V := qmax c.r (qmax c.g c.b) with hV
  set M := qmin c.r (qmin c.g c.b) with hM
  by_cases hd : V - M = 0
  · rw [if_pos hd]
    exact ⟨⟨le_rfl, one_pos, zero_le_one⟩, Or.inl ⟨rfl, rfl⟩⟩
  · rw [if_neg hd]
    dsimp only
    have hMV : M ≤ V := le_trans h1M h1V
    have hdpos : 0 < V - M := lt_of_le_of_ne (by linarith) (Ne.symm hd)
    have hV0 : 0 < V := by linarith
    have hspos : 0 < (V - M) / V := div_pos hdpos hV0
    have hs1 : (V - M) / V ≤ 1 := by
      rw [div_le_one hV0]
      linarith
    have o1 := offset_bound h2M h2V h3M h3V hdpos
    have o2 := offset_bound h3M h3V h1M h1V hdpos
    have o3 := offset_bound h1M h1V h2M h2V hdpos
    refine ⟨⟨?_, ?_, hs1⟩, Or.inr ⟨hspos, hV0⟩⟩
    · split_ifs <;> linarith [o1.1, o1.2, o2.1, o2.2, o3.1, o3.2]
    · split_ifs <;> linarith [o1.1, o1.2, o2.1, o2.2, o3.1, o3.2]

/-- `HSV_to_RGB` at saturation 0 is the gray triple of the value, for any
in-range hue. -/
theorem colorOfHSV_sat_zero {h : ℚ} (h0 : 0 ≤ h) (h1 : h < 1) (v : ℚ) :
    colorOfHSV h 0 v = ⟨v, v, v⟩ := by
  have h6ne : ¬(h * 6 = 6) := by intro he; nlinarith
  have hfl : ⌊h * 6⌋ = 0 ∨ ⌊h * 6⌋ = 1 ∨ ⌊h * 6⌋ = 2 ∨ ⌊h * 6⌋ = 3 ∨
      ⌊h * 6⌋ = 4 ∨ ⌊h * 6⌋ = 5 := by
    have hb1 : (0:ℤ) ≤ ⌊h * 6⌋ := Int.floor_nonneg.mpr (by nlinarith)
    have hb2 : ⌊h * 6⌋ < 6 := by
      rw [Int.floor_lt]
      push_cast
      nlinarith
    omega
  unfold colorOfHSV
  dsimp only
  rw [if_neg h6ne]
  rcases hfl with hf | hf | hf | hf | hf | hf <;> rw [hf] <;> norm_num

/-- C9: `complementary` is `hue_shift(0.5)`, and on every color with
non-negative channels (every color built from in-range RGB, hex or HSV
data) applying it twice restores the hue: the hue component of
`complementary(complementary(c))` equals the hue of `c`, the shift being
`h + 0.5 + 0.5` taken modulo 1. -/
theorem c9_complementary_involutive_on_hue :
    (∀ c : Color, complementary c = hueShift c (1/2)) ∧
      ∀ c : Color, 0 ≤ c.r → 0 ≤ c.g → 0 ≤ c.b →
        hueOf (complementary (complementary c)) = hueOf c := by
  refine ⟨fun c => rfl, fun c hr hg hb => ?_⟩
  obtain ⟨⟨hh0c, hh1c, hs1c⟩, hcase⟩ := hsvOf_props c hr hg hb
  rcases hcase with ⟨hhue0, hsat0⟩ | ⟨hs0c, hv0c⟩
  · -- achromatic: both complementaries are the same gray, hue stays 0
    have hgray : complementary c =
        ⟨(hsvOf c).2.2, (hsvOf c).2.2, (hsvOf c).2.2⟩ := by
      show colorOfHSV (pmod1 ((hsvOf c).1 + 1/2)) (hsvOf c).2.1
        (hsvOf c).2.2 = _
      rw [hhue0, hsat0, show pmod1 (0 + 1/2) = (1/2 : ℚ) from by decide]
      exact colorOfHSV_sat_zero (by norm_num) (by norm_num) _
    have hgray2 : complementary
        (⟨(hsvOf c).2.2, (hsvOf c).2.2, (hsvOf c).2.2⟩ : Color) =
        ⟨(hsvOf c).2.2, (hsvOf c).2.2, (hsvOf c).2.2⟩ := by
      show colorOfHSV
        (pmod1 ((hsvOf (⟨(hsvOf c).2.2, (hsvOf c).2.2,
          (hsvOf c).2.2⟩ : Color)).1 + 1/2))
        (hsvOf (⟨(hsvOf c).2.2, (hsvOf c).2.2,
          (hsvOf c).2.2⟩ : Color)).2.1
        (hsvOf (⟨(hsvOf c).2.2, (hsvOf c).2.2,
          (hsvOf c).2.2⟩ : Color)).2.2 = _
      rw [hsvOf_gray]
      dsimp only
      rw [show pmod1 (0 + 1/2) = (1/2 : ℚ) from by decide]
      exact colorOfHSV_sat_zero (by norm_num) (by norm_num) _
    rw [hgray, hgray2]
    unfold hueOf
    rw [hsvOf_gray, hhue0]
  · -- chromatic: both conversions round-trip and the hue shifts cancel
    have e1 : hsvOf (complementary c) =
        (pmod1 ((hsvOf c).1 + 1/2), (hsvOf c).2.1, (hsvOf c).2.2) := by
      show hsvOf (colorOfHSV (pmod1 ((hsvOf c).1 + 1/2)) (hsvOf c).2.1
        (hsvOf c).2.2) = _
      exact hsv_roundtrip (pmod1_nonneg _) (pmod1_lt_one _) hs0c hs1c hv0c
    have e2 : hsvOf (complementary (complementary c)) =
        (pmod1 (pmod1 ((hsvOf c).1 + 1/2) + 1/2),
          (hsvOf c).2.1, (hsvOf c).2.2) := by
      show hsvOf (colorOfHSV
        (pmod1 ((hsvOf (complementary c)).1 + 1/2))
        (hsvOf (complementary c)).2.1
        (hsvOf (complementary c)).2.2) = _
      rw [e1]
      exact hsv_roundtrip (pmod1_nonneg _) (pmod1_lt_one _) hs0c hs1c hv0c
    unfold hueOf
    rw [e2]
    dsimp only
    rw [pmod1_eq_fract, pmod1_eq_fract]
    have hstep : Int.fract (Int.fract ((hsvOf c).1 + 1/2) + 1/2) =
        Int.fract ((hsvOf c).1 + 1) := by
      apply Int.fract_eq_fract.mpr
      refine ⟨-⌊(hsvOf c).1 + 1/2⌋, ?_⟩
      simp only [Int.fract]
      push_cast
      ring
    rw [hstep,
      show ((hsvOf c).1 + 1 : ℚ) = (hsvOf c).1 + ((1:ℤ) : ℚ) from by
        push_cast
        ring,
      Int.fract_add_int]
    exact Int.fract_eq_self.mpr ⟨hh0c, hh1c⟩

/-- C9 witness: the double complementary of the concrete color built from
RGB (10, 200, 40) has the hue of that color. -/
theorem c9_complementary_involutive_on_hue_witness :
    0 ≤ (fromRgb 10 200 40).r ∧
      hueOf (complementary (complementary (fromRgb 10 200 40))) =
        hueOf (fromRgb 10 200 40) :=
  ⟨by decide, c9_complementary_involutive_on_hue.2 (fromRgb 10 200 40)
    (by decide) (by decide) (by decide)⟩


end CPE
